import Mathlib

/-!
Verification of the Neo4j graph loader (`utils/neo4j_loader.py`).

We shallowly embed the loader: decoded JSON payloads become `JValue`,
the Neo4j database becomes an explicit `GraphState` (property maps for
nodes, identified by stable internal ids, and directed relationships),
and each Cypher query issued by the loader (`MERGE`/`MATCH`/`SET`/
`DETACH DELETE`) becomes a pure state transformer.  Exceptions raised
by the storage layer for individual write requests are modelled by an
oracle `fail : WriteReq → Bool`; Python exceptions raised by attribute
access on non-dict JSON values are modelled with `Except`.
-/

/-- Decoded JSON values (the result of Python's `json.load`).  Numbers
are modelled as rationals; the loader never computes with them. -/
inductive JValue where
  | null : JValue
  | bool (b : Bool) : JValue
  | num (q : Rat) : JValue
  | str (s : String) : JValue
  | arr (xs : List JValue) : JValue
  | obj (fs : List (String × JValue)) : JValue

mutual

/-- Structural equality test on JSON values. -/
def JValue.beq : JValue → JValue → Bool
  | .null, .null => true
  | .bool a, .bool b => a == b
  | .num a, .num b => a == b
  | .str a, .str b => a == b
  | .arr xs, .arr ys => beqL xs ys
  | .obj fs, .obj gs => beqO fs gs
  | _, _ => false

/-- Equality test on lists of JSON values. -/
def beqL : List JValue → List JValue → Bool
  | [], [] => true
  | x :: xs, y :: ys => JValue.beq x y && beqL xs ys
  | _, _ => false

/-- Equality test on JSON object field lists. -/
def beqO : List (String × JValue) → List (String × JValue) → Bool
  | [], [] => true
  | (k, x) :: xs, (l, y) :: ys => k == l && JValue.beq x y && beqO xs ys
  | _, _ => false

end

mutual

theorem JValue.beq_iff : ∀ a b : JValue, (JValue.beq a b = true) ↔ a = b
  | .null, b => by cases b <;> simp [JValue.beq]
  | .bool a, b => by cases b <;> simp [JValue.beq]
  | .num a, b => by cases b <;> simp [JValue.beq]
  | .str a, b => by cases b <;> simp [JValue.beq]
  | .arr xs, b => by
      cases b <;> simp [JValue.beq]
      exact beqL_iff xs _
  | .obj fs, b => by
      cases b <;> simp [JValue.beq]
      exact beqO_iff fs _

theorem beqL_iff : ∀ xs ys : List JValue, (beqL xs ys = true) ↔ xs = ys
  | [], ys => by cases ys <;> simp [beqL]
  | _ :: _, [] => by simp [beqL]
  | x :: xs, y :: ys => by
      simp [beqL, JValue.beq_iff x y, beqL_iff xs ys]

theorem beqO_iff : ∀ xs ys : List (String × JValue), (beqO xs ys = true) ↔ xs = ys
  | [], ys => by cases ys <;> simp [beqO]
  | _ :: _, [] => by simp [beqO]
  | (k, x) :: xs, (l, y) :: ys => by
      simp [beqO, JValue.beq_iff x y, beqO_iff xs ys]

end

instance : DecidableEq JValue := fun a b =>
  decidable_of_iff (JValue.beq a b = true) (JValue.beq_iff a b)

/-- Python truthiness of a decoded JSON value (`if not x: ...`). -/
def JValue.truthy : JValue → Bool
  | .null => false
  | .bool b => b
  | .num q => q != 0
  | .str s => s != ""
  | .arr xs => !xs.isEmpty
  | .obj fs => !fs.isEmpty

/-- A stored property map (Neo4j node or relationship properties). -/
abbrev Props := List (String × JValue)

/-- `d.get(k, default)` on a JSON object's fields. -/
def lookupD (fs : Props) (k : String) (d : JValue) : JValue :=
  match fs.lookup k with
  | some v => v
  | none => d

/-- The fields of a JSON object, `none` when the value is not an object
(where Python's `.get` would raise `AttributeError`). -/
def asObj : JValue → Option Props
  | .obj fs => some fs
  | _ => none

instance {ε α : Type} [DecidableEq ε] [DecidableEq α] : DecidableEq (Except ε α) := fun a b =>
  match a, b with
  | .ok x, .ok y =>
    if h : x = y then .isTrue (by rw [h]) else .isFalse (by simp [h])
  | .ok _, .error _ => .isFalse (by simp)
  | .error _, .ok _ => .isFalse (by simp)
  | .error e, .error f =>
    if h : e = f then .isTrue (by rw [h]) else .isFalse (by simp [h])

/-- A stored Neo4j relationship: directed, between two nodes given by
their internal ids, with a property map (`type`, `dataset`, `weight`). -/
structure EdgeRec where
  src : Nat
  dst : Nat
  props : Props
deriving DecidableEq

/-- The Neo4j database contents visible to the loader.  Stored nodes
carry a stable internal id (node identity is not property equality) and
a property map; every node written by the loader has label `Entity`
and `clear_graph` ignores labels, so labels are not modelled. -/
structure GraphState where
  nextId : Nat
  nodes : List (Nat × Props)
  edges : List EdgeRec
deriving DecidableEq

/-- The empty database. -/
def GraphState.empty : GraphState := ⟨0, [], []⟩

/-- Cypher `SET n.k = v` on a property map: setting `null` removes the
property, otherwise the property is created or overwritten. -/
def setProp (ps : Props) (k : String) (v : JValue) : Props :=
  match v with
  | .null => ps.filter (fun kv => kv.1 != k)
  | _ =>
    if ps.any (fun kv => kv.1 == k) then
      ps.map (fun kv => if kv.1 == k then (k, v) else kv)
    else
      ps ++ [(k, v)]

/-- Cypher `n += m` on a property map: per-key set, `null` removes. -/
def addProps (ps qs : Props) : Props :=
  qs.foldl (fun acc kv => setProp acc kv.1 kv.2) ps

/-- Whether a stored property map matches a Cypher pattern map
`{k1: v1, ...}` (every listed key present with the listed value). -/
def matchesKey (key : Props) (ps : Props) : Bool :=
  key.all (fun kv => ps.lookup kv.1 == some kv.2)

/-- Internal ids of the stored nodes matching a pattern map. -/
def findIds (s : GraphState) (key : Props) : List Nat :=
  (s.nodes.filter (fun p => matchesKey key p.2)).map (fun p => p.1)

/-- Cypher `MERGE (n {key...})` with `ON CREATE` / `ON MATCH` clauses:
if no stored node matches the pattern, create one from the pattern map
and apply `onCreate`; otherwise apply `onMatch` to every match.
Returns the new state and the bound node ids. -/
def mergeNodes (s : GraphState) (key : Props) (onCreate onMatch : Props → Props) :
    GraphState × List Nat :=
  let matched := findIds s key
  if matched.isEmpty then
    ({ s with nextId := s.nextId + 1,
              nodes := s.nodes ++ [(s.nextId, onCreate key)] }, [s.nextId])
  else
    ({ s with nodes :=
        s.nodes.map (fun p => if matchesKey key p.2 then (p.1, onMatch p.2) else p) },
     matched)

/-- Cypher `MERGE (a)-[r:RELATES {key...}]->(b)` followed by an optional
`SET` (`post`): if a matching relationship from `a` to `b` exists, apply
`post` to each match's properties, else create one from the pattern map
and apply `post` to it. -/
def mergeEdge (s : GraphState) (a b : Nat) (key : Props) (post : Props → Props) :
    GraphState :=
  let isM := fun (e : EdgeRec) => a == e.src && b == e.dst && matchesKey key e.props
  if s.edges.any isM then
    { s with edges :=
        s.edges.map (fun e => if isM e then { e with props := post e.props } else e) }
  else
    { s with edges := s.edges ++ [⟨a, b, post key⟩] }

/-- `clear_graph`: Cypher
`MATCH (n {dataset: $dataset}) DETACH DELETE n` — deletes every node
whose `dataset` property equals the dataset name, and (DETACH) every
relationship attached to a deleted node. -/
def clearGraph (s : GraphState) (ds : String) : GraphState :=
  let isDead := fun (p : Nat × Props) => p.2.lookup "dataset" == some (.str ds)
  let deadIds := (s.nodes.filter isDead).map (fun p => p.1)
  { s with
      nodes := s.nodes.filter (fun p => !isDead p),
      edges := s.edges.filter
        (fun e => !deadIds.contains e.src && !deadIds.contains e.dst) }

example : (JValue.str "a" == JValue.str "a") = true := by decide
example : lookupD [("x", .num 1)] "y" (.str "d") = .str "d" := by decide
example : setProp [("a", .num 1)] "a" .null = [] := by decide
example : addProps [("a", .num 1)] [("b", .num 2)] = [("a", .num 1), ("b", .num 2)] := by decide

/-- The data of one relationship-list record that survives extraction
(lines 126-142 of `neo4j_loader.py`) and is sent to the database. -/
structure RelWrite where
  startName : JValue
  endName : JValue
  startType : JValue
  endType : JValue
  startProps : Props
  endProps : Props
  relation : JValue
deriving DecidableEq

/-- A parameterized query sent through `session.run`.  The failure
oracle decides per request whether the storage layer raises. -/
inductive WriteReq where
  | relMerge (ds : String) (w : RelWrite)
  | stdNode (ds : String) (id name nodeType attributes : JValue)
  | stdEdge (ds : String) (source target relation weight : JValue)
  | clearReq (ds : String)
  | ping
deriving DecidableEq

/-- Field extraction for one relationship-list element, lines 122-142:
a non-dict element is skipped (`.ok none`); `.get` on a non-dict
`start_node`/`end_node`/`properties` raises `AttributeError`
(`.error ()`), uncaught at this level; an empty (falsy) name on either
endpoint skips the record; otherwise the record's write data. -/
def relProcess (item : JValue) : Except Unit (Option RelWrite) :=
  match asObj item with
  | none => .ok none
  | some ifs =>
    let start_node := lookupD ifs "start_node" (.obj [])
    let end_node := lookupD ifs "end_node" (.obj [])
    let relation := lookupD ifs "relation" (.str "RELATED_TO")
    match asObj start_node, asObj end_node with
    | some snfs, some enfs =>
      match asObj (lookupD snfs "properties" (.obj [])),
            asObj (lookupD enfs "properties" (.obj [])) with
      | some spfs, some epfs =>
        let start_name := lookupD spfs "name" (.str "")
        let end_name := lookupD epfs "name" (.str "")
        if start_name.truthy && end_name.truthy then
          let start_type := lookupD spfs "schema_type" (lookupD snfs "label" (.str "Entity"))
          let end_type := lookupD epfs "schema_type" (lookupD enfs "label" (.str "Entity"))
          .ok (some ⟨start_name, end_name, start_type, end_type, spfs, epfs, relation⟩)
        else
          .ok none
      | _, _ => .error ()
    | _, _ => .error ()

/-- Pattern map `{name: $n, dataset: $dataset}` used by the
relationship-list node MERGE. -/
def nameKey (n : JValue) (ds : String) : Props :=
  [("name", n), ("dataset", .str ds)]

/-- Pattern map `{id: $i, dataset: $dataset}` used by the standard
node MERGE and the standard edge MATCH. -/
def idKey (i : JValue) (ds : String) : Props :=
  [("id", i), ("dataset", .str ds)]

/-- Pattern map `{type: $relation, dataset: $dataset}` used by both
relationship MERGEs. -/
def relKey (r : JValue) (ds : String) : Props :=
  [("type", r), ("dataset", .str ds)]

/-- Effect on the database of the query at lines 146-165:
`MERGE` endpoint `a` by `(name, dataset)` (on create also set `type`,
always `+=` the raw properties), then endpoint `b` likewise, then
`MERGE` a `RELATES` relationship keyed by `(type, dataset)` between
each bound pair. -/
def applyRelMerge (s : GraphState) (ds : String) (w : RelWrite) : GraphState :=
  let r1 := mergeNodes s (nameKey w.startName ds)
      (fun n => addProps (setProp n "type" w.startType) w.startProps)
      (fun n => addProps n w.startProps)
  let r2 := mergeNodes r1.1 (nameKey w.endName ds)
      (fun n => addProps (setProp n "type" w.endType) w.endProps)
      (fun n => addProps n w.endProps)
  r1.2.foldl
    (fun st a =>
      r2.2.foldl (fun st2 b => mergeEdge st2 a b (relKey w.relation ds) id) st)
    r2.1

/-- The loop of `_load_relationship_list_format` (lines 121-173): per
item, extraction (propagating its raise), skip rules, then the guarded
write: a raising write is logged and skipped, a successful write
returns a row (`result.peek()` is truthy) and increments the counters
by 2 nodes / 1 relationship. -/
def loadRelGo (fail : WriteReq → Bool) (ds : String) :
    GraphState → Nat → Nat → List JValue → GraphState × Except Unit (Nat × Nat)
  | s, nc, rc, [] => (s, .ok (nc, rc))
  | s, nc, rc, item :: rest =>
    match relProcess item with
    | .error _ => (s, .error ())
    | .ok none => loadRelGo fail ds s nc rc rest
    | .ok (some w) =>
      if fail (.relMerge ds w) then
        loadRelGo fail ds s nc rc rest
      else
        loadRelGo fail ds (applyRelMerge s ds w) (nc + 2) (rc + 1) rest

/-- Result stats dict (`nodes_created`, `relationships_created`,
`format`). -/
structure Stats where
  nodes_created : Nat
  relationships_created : Nat
  format : String
deriving DecidableEq

/-- `_load_relationship_list_format`. -/
def load_relationship_list_format (fail : WriteReq → Bool) (ds : String)
    (s : GraphState) (items : List JValue) : GraphState × Except Unit Stats :=
  match loadRelGo fail ds s 0 0 items with
  | (s1, .ok (nc, rc)) => (s1, .ok ⟨nc, rc, "relationship_list"⟩)
  | (s1, .error e) => (s1, .error e)

/-- Python iteration `for x in v` over a decoded JSON value: lists
yield their elements, strings their characters, dicts their keys; any
other value raises `TypeError` (as does the `len(v)` in the logging
line that runs before either loop). -/
def pyIter : JValue → Except Unit (List JValue)
  | .arr xs => .ok xs
  | .str s => .ok (s.toList.map (fun c => .str (String.mk [c])))
  | .obj fs => .ok (fs.map (fun kv => .str kv.1))
  | _ => .error ()

/-- The `SET` clause of the standard node write (line 221):
unconditionally overwrite `name`, `type`, `attributes`. -/
def stdNodeSet (name ntype attrs : JValue) (n : Props) : Props :=
  setProp (setProp (setProp n "name" name) "type" ntype) "attributes" attrs

/-- Effect of the query at lines 218-228: `MERGE` by `(id, dataset)`
then `SET` on both create and match. -/
def applyStdNode (s : GraphState) (ds : String) (nid name ntype attrs : JValue) :
    GraphState :=
  (mergeNodes s (idKey nid ds) (stdNodeSet name ntype attrs) (stdNodeSet name ntype attrs)).1

/-- Effect of the query at lines 245-257: `MATCH` both endpoints by
`(id, dataset)`; when either match is empty the query produces no rows
and writes nothing (it does not raise); otherwise `MERGE` the
relationship per bound pair and `SET` its weight. -/
def applyStdEdge (s : GraphState) (ds : String) (src tgt rel wt : JValue) :
    GraphState :=
  let ais := findIds s (idKey src ds)
  let bis := findIds s (idKey tgt ds)
  ais.foldl
    (fun st a =>
      bis.foldl
        (fun st2 b => mergeEdge st2 a b (relKey rel ds) (fun ps => setProp ps "weight" wt))
        st)
    s

/-- Node phase of `_load_standard_format` (lines 208-232).  The third
component is `false` when a non-dict element made `.get` raise
(uncaught at this level, aborting the loop). -/
def stdNodesGo (fail : WriteReq → Bool) (ds : String) :
    GraphState → Nat → List JValue → GraphState × Nat × Bool
  | s, nc, [] => (s, nc, true)
  | s, nc, node :: rest =>
    match asObj node with
    | none => (s, nc, false)
    | some fs =>
      let node_id := lookupD fs "id" (.str "")
      let name := lookupD fs "name" node_id
      let node_type := lookupD fs "type" (.str "Entity")
      let attributes := lookupD fs "attributes" (.arr [])
      if !node_id.truthy then
        stdNodesGo fail ds s nc rest
      else if fail (.stdNode ds node_id name node_type attributes) then
        stdNodesGo fail ds s nc rest
      else
        stdNodesGo fail ds (applyStdNode s ds node_id name node_type attributes) (nc + 1) rest

/-- Edge phase of `_load_standard_format` (lines 235-261).  Note the
counter increments whenever `session.run` does not raise, even when
the `MATCH` found no endpoints and nothing was written. -/
def stdEdgesGo (fail : WriteReq → Bool) (ds : String) :
    GraphState → Nat → List JValue → GraphState × Nat × Bool
  | s, rc, [] => (s, rc, true)
  | s, rc, edge :: rest =>
    match asObj edge with
    | none => (s, rc, false)
    | some fs =>
      let source := lookupD fs "source" (.str "")
      let target := lookupD fs "target" (.str "")
      let relation := lookupD fs "relation" (.str "RELATED_TO")
      let weight := lookupD fs "weight" (.num 1)
      if !source.truthy || !target.truthy then
        stdEdgesGo fail ds s rc rest
      else if fail (.stdEdge ds source target relation weight) then
        stdEdgesGo fail ds s rc rest
      else
        stdEdgesGo fail ds (applyStdEdge s ds source target relation weight) (rc + 1) rest

/-- `_load_standard_format` (lines 182-268): read `nodes` and `edges`
with defaults, run the node phase to completion, then the edge phase. -/
def load_standard_format (fail : WriteReq → Bool) (ds : String)
    (s : GraphState) (gd : JValue) : GraphState × Except Unit Stats :=
  match asObj gd with
  | none => (s, .error ())
  | some fs =>
    let nodes := lookupD fs "nodes" (.arr [])
    let edges := lookupD fs "edges" (.arr [])
    match pyIter nodes, pyIter edges with
    | .error _, _ => (s, .error ())
    | _, .error _ => (s, .error ())
    | .ok nitems, .ok eitems =>
      match stdNodesGo fail ds s 0 nitems with
      | (s1, _, false) => (s1, .error ())
      | (s1, nc, true) =>
        match stdEdgesGo fail ds s1 0 eitems with
        | (s2, _, false) => (s2, .error ())
        | (s2, rc, true) => (s2, .ok ⟨nc, rc, "standard"⟩)

/-- The fatal failures of a load call (collapsed to `None` by the
public wrapper). -/
inductive LoadError where
  | notFound
  | invalidJSON
  | unknownFormat
  | clearError
  | typeError
deriving DecidableEq

/-- `load_graph_from_json` (lines 68-100): missing file, JSON decode
failure, then — in source order — the optional destructive clear
(lines 90-92, whose own failure propagates) and only afterwards the
format dispatch (lines 94-100). -/
def load_graph_from_json (fail : WriteReq → Bool) (fileExists : Bool)
    (decoded : Option JValue) (ds : String) (clear_existing : Bool)
    (s : GraphState) : GraphState × Except LoadError Stats :=
  if !fileExists then (s, .error .notFound)
  else
    match decoded with
    | none => (s, .error .invalidJSON)
    | some gd =>
      if clear_existing && fail (.clearReq ds) then (s, .error .clearError)
      else
        let s1 := if clear_existing then clearGraph s ds else s
        match gd with
        | .arr items =>
          (match load_relationship_list_format fail ds s1 items with
           | (s2, .ok st) => (s2, .ok st)
           | (s2, .error _) => (s2, .error .typeError))
        | .obj fs =>
          if fs.any (fun kv => kv.1 == "nodes") then
            match load_standard_format fail ds s1 gd with
            | (s2, .ok st) => (s2, .ok st)
            | (s2, .error _) => (s2, .error .typeError)
          else (s1, .error .unknownFormat)
        | _ => (s1, .error .unknownFormat)

/-- The external world of one `load_graph_to_neo4j` call. -/
structure Env where
  driverCreated : Bool
  pingOk : Bool
  fileExists : Bool
  decoded : Option JValue
  fail : WriteReq → Bool

/-- Observable outcome of one `load_graph_to_neo4j` call: the returned
value, the final database contents, and whether a driver connection
was opened and whether it was closed. -/
structure CallResult where
  result : Option Stats
  graph : GraphState
  connOpened : Bool
  connClosed : Bool
deriving DecidableEq

/-- `load_graph_to_neo4j` (lines 271-307): connect (creating the
driver may itself raise, leaving nothing to close; the test ping may
fail after the driver exists), run the load inside `try`, collapse
every raised error to `None`, and in `finally` close the driver when
one exists. -/
def load_graph_to_neo4j (env : Env) (ds : String) (clear_existing : Bool)
    (s0 : GraphState) : CallResult :=
  if !env.driverCreated then
    { result := none, graph := s0, connOpened := false, connClosed := false }
  else if !env.pingOk then
    { result := none, graph := s0, connOpened := true, connClosed := true }
  else
    match load_graph_from_json env.fail env.fileExists env.decoded ds clear_existing s0 with
    | (s1, .ok st) => { result := some st, graph := s1, connOpened := true, connClosed := true }
    | (s1, .error _) => { result := none, graph := s1, connOpened := true, connClosed := true }

/-! ## Concrete inputs used by scenario-level theorems -/

/-- The failure-free storage oracle (no write raises). -/
def neverFail : WriteReq → Bool := fun _ => false

/-- The standard-format document of the dangling-edge scenario:
`{"nodes":[{"id":"1","name":"Alice"}],"edges":[{"source":"1","target":"99","relation":"knows"}]}`. -/
def danglingEdgeDoc : JValue := .obj [
  ("nodes", .arr [.obj [("id", .str "1"), ("name", .str "Alice")]]),
  ("edges", .arr [.obj [("source", .str "1"), ("target", .str "99"), ("relation", .str "knows")]])]

/-- A database holding one node of dataset `demo`. -/
def demoNodeState : GraphState :=
  ⟨1, [(0, [("id", .str "1"), ("dataset", .str "demo"), ("name", .str "Alice")])], []⟩

/-! ## General-purpose lemmas -/

theorem foldl_const {α β : Type} (l : List α) (s : β) :
    l.foldl (fun st _ => st) s = s := by
  induction l generalizing s with
  | nil => rfl
  | cons a l ih => simp [List.foldl, ih s]

/-- A value classified by the parser as neither known shape: not a
list, and not a dict containing a `nodes` key. -/
def unknownFormatVal : JValue → Bool
  | .arr _ => false
  | .obj fs => !(fs.any (fun kv => kv.1 == "nodes"))
  | _ => true

/-- When either endpoint `MATCH` of the standard edge query binds no
node, the query writes nothing. -/
theorem applyStdEdge_missing_endpoint (s : GraphState) (ds : String)
    (src tgt rel wt : JValue)
    (h : findIds s (idKey src ds) = [] ∨ findIds s (idKey tgt ds) = []) :
    applyStdEdge s ds src tgt rel wt = s := by
  rcases h with h | h <;> unfold applyStdEdge <;> rw [h]
  · rfl
  · simp [foldl_const _ s]

/-! ## Claims -/

/-- C10: in relationship-list loading, a list element that is not a
mapping is skipped silently: it raises no error, performs no database
write, and leaves both counters unchanged, so a heterogeneous
top-level list still loads its well-formed elements. -/
theorem C10_nondict_item_skipped (fail : WriteReq → Bool) (ds : String)
    (s : GraphState) (nc rc : Nat) (v : JValue) (rest : List JValue)
    (h : asObj v = none) :
    loadRelGo fail ds s nc rc (v :: rest) = loadRelGo fail ds s nc rc rest := by
  have h1 : relProcess v = .ok none := by
    unfold relProcess
    rw [h]
  simp [loadRelGo, h1]

/-- Witness for C10: a bare number in the list is skipped and the rest
of the list is processed identically. -/
theorem C10_witness :
    asObj (JValue.num 5) = none ∧
    loadRelGo neverFail "d" GraphState.empty 0 0 [JValue.num 5, JValue.num 6]
      = loadRelGo neverFail "d" GraphState.empty 0 0 [JValue.num 6] :=
  ⟨rfl, C10_nondict_item_skipped neverFail "d" GraphState.empty 0 0 (JValue.num 5) [JValue.num 6] rfl⟩

/-- C8: for every invocation of `load_graph_to_neo4j` and every
outcome — success, connection failure, missing file, invalid JSON,
unknown format, clear failure, or any ingestion error — the database
connection is closed before the function returns; no exit path leaves
the session open. -/
theorem C8_connection_never_left_open (env : Env) (ds : String)
    (clear_existing : Bool) (s0 : GraphState) :
    ((load_graph_to_neo4j env ds clear_existing s0).connOpened
      && !(load_graph_to_neo4j env ds clear_existing s0).connClosed) = false := by
  unfold load_graph_to_neo4j
  split
  · rfl
  · split
    · rfl
    · split <;> rfl

/-- C2 counterexample: with `clear_existing=true` and top-level input
`42`, the call does fail with UnknownFormat and returns no stats, but
the destructive clear has already been performed: a pre-existing node
of the dataset is gone.  This refutes the claim that classification
happens before the optional clear and that no database write has been
performed. -/
theorem C2_counterexample :
    ((load_graph_from_json neverFail true (some (.num 42)) "demo" true demoNodeState).2
        = .error .unknownFormat)
    ∧ (load_graph_from_json neverFail true (some (.num 42)) "demo" true demoNodeState).1
        ≠ demoNodeState := by decide

/-- C2 (amended): for every load call whose decoded top-level value is
neither a sequence nor a mapping containing a `nodes` key, the call
fails with UnknownFormat and no partial stats are returned — but the
optional clear runs *before* classification, so when `clear_existing`
is true (and the clear itself does not raise) the destructive clear
has already been performed when the failure is raised. -/
theorem C2_amended_clear_runs_before_classification (fail : WriteReq → Bool)
    (ds : String) (ce : Bool) (s : GraphState) (gd : JValue)
    (h1 : unknownFormatVal gd = true) (h2 : fail (.clearReq ds) = false) :
    load_graph_from_json fail true (some gd) ds ce s
      = (if ce then clearGraph s ds else s, .error .unknownFormat) := by
  unfold load_graph_from_json
  cases gd <;> simp_all [unknownFormatVal]
  intro x hx
  exact absurd rfl (h1 _ _ hx)

/-- Witness for the amended C2 at the spec's scenario input `42`. -/
theorem C2_amended_witness :
    unknownFormatVal (.num 42) = true ∧ neverFail (.clearReq "demo") = false ∧
    load_graph_from_json neverFail true (some (.num 42)) "demo" true demoNodeState
      = (clearGraph demoNodeState "demo", .error .unknownFormat) :=
  ⟨rfl, rfl, by
    have h := C2_amended_clear_runs_before_classification neverFail "demo" true
      demoNodeState (.num 42) rfl rfl
    simpa using h⟩

/-- C1 counterexample: for the input
`{"nodes":[{"id":"1","name":"Alice"}],"edges":[{"source":"1","target":"99","relation":"knows"}]}`
the returned stats are `nodes_created: 1, relationships_created: 1`,
not `relationships_created: 0` as claimed: the dangling edge write is
a storage-layer no-op but the code increments the counter whenever
`session.run` does not raise. -/
theorem C1_counterexample :
    ((load_graph_from_json neverFail true (some danglingEdgeDoc) "demo" true GraphState.empty).2
        = .ok ⟨1, 1, "standard"⟩)
    ∧ (load_graph_from_json neverFail true (some danglingEdgeDoc) "demo" true GraphState.empty).2
        ≠ .ok ⟨1, 0, "standard"⟩ := by decide

/-- C1 (amended): in standard-format loading, an EdgeRecord whose
source or target id matches no stored node of the dataset is a
non-fatal no-op at the storage layer — no edge is written, no error is
raised, and the loop continues — but `relationships_created` is still
incremented for it. -/
theorem C1_amended_dangling_edge_still_counted (fail : WriteReq → Bool) (ds : String)
    (s : GraphState) (rc : Nat) (fs : Props) (rest : List JValue)
    (source target relation weight : JValue)
    (hsource : lookupD fs "source" (.str "") = source)
    (htarget : lookupD fs "target" (.str "") = target)
    (hrel : lookupD fs "relation" (.str "RELATED_TO") = relation)
    (hwt : lookupD fs "weight" (.num 1) = weight)
    (hst : source.truthy = true) (htt : target.truthy = true)
    (hfail : fail (.stdEdge ds source target relation weight) = false)
    (hmiss : findIds s (idKey source ds) = [] ∨ findIds s (idKey target ds) = []) :
    stdEdgesGo fail ds s rc (.obj fs :: rest) = stdEdgesGo fail ds s (rc + 1) rest := by
  simp [stdEdgesGo, asObj, hsource, htarget, hrel, hwt, hst, htt, hfail,
        applyStdEdge_missing_endpoint s ds source target relation weight hmiss]

/-- Witness for the amended C1: the scenario's dangling edge
(`target` "99" absent) leaves the database of dataset `demo` unchanged
yet bumps the relationship counter. -/
theorem C1_amended_witness :
    findIds demoNodeState (idKey (.str "99") "demo") = [] ∧
    stdEdgesGo neverFail "demo" demoNodeState 0
        [.obj [("source", .str "1"), ("target", .str "99"), ("relation", .str "knows")]]
      = stdEdgesGo neverFail "demo" demoNodeState 1 [] := by
  refine ⟨by decide, ?_⟩
  exact C1_amended_dangling_edge_still_counted neverFail "demo" demoNodeState 0 _ []
    _ _ _ _ rfl rfl rfl rfl rfl rfl rfl (Or.inr (by decide))

/-- The always-raising storage oracle. -/
def alwaysFail : WriteReq → Bool := fun _ => true

theorem asObj_eq_some {v : JValue} {fs : Props} (h : asObj v = some fs) :
    v = .obj fs := by
  cases v <;> simp_all [asObj]

/-- C6: for every input, a record with an empty required identity
field — a RelationshipRecord whose start or end name is empty, a
NodeRecord whose id is empty, or an EdgeRecord whose source or target
is empty — is skipped without raising, contributes nothing to the
stored graph, and increments no counter in the returned stats: the
loop on `record :: rest` equals the loop on `rest` alone. -/
theorem C6_empty_identity_field_skipped :
    (∀ (fail : WriteReq → Bool) (ds : String) (s : GraphState) (nc rc : Nat)
       (ifs snfs enfs spfs epfs : Props) (rest : List JValue),
       asObj (lookupD ifs "start_node" (.obj [])) = some snfs →
       asObj (lookupD ifs "end_node" (.obj [])) = some enfs →
       asObj (lookupD snfs "properties" (.obj [])) = some spfs →
       asObj (lookupD enfs "properties" (.obj [])) = some epfs →
       (lookupD spfs "name" (.str "") = .str "" ∨ lookupD epfs "name" (.str "") = .str "") →
       loadRelGo fail ds s nc rc (.obj ifs :: rest) = loadRelGo fail ds s nc rc rest)
  ∧ (∀ (fail : WriteReq → Bool) (ds : String) (s : GraphState) (nc : Nat)
       (fs : Props) (rest : List JValue),
       lookupD fs "id" (.str "") = .str "" →
       stdNodesGo fail ds s nc (.obj fs :: rest) = stdNodesGo fail ds s nc rest)
  ∧ (∀ (fail : WriteReq → Bool) (ds : String) (s : GraphState) (rc : Nat)
       (fs : Props) (rest : List JValue),
       (lookupD fs "source" (.str "") = .str "" ∨ lookupD fs "target" (.str "") = .str "") →
       stdEdgesGo fail ds s rc (.obj fs :: rest) = stdEdgesGo fail ds s rc rest) := by
  refine ⟨?_, ?_, ?_⟩
  · intro fail ds s nc rc ifs snfs enfs spfs epfs rest hsn hen hsp hep hname
    have e1 := asObj_eq_some hsn
    have e2 := asObj_eq_some hen
    have e3 := asObj_eq_some hsp
    have e4 := asObj_eq_some hep
    have h1 : relProcess (.obj ifs) = .ok none := by
      unfold relProcess
      rcases hname with h | h <;>
        simp [asObj, e1, e2, e3, e4, h, JValue.truthy]
    simp [loadRelGo, h1]
  · intro fail ds s nc fs rest h
    simp [stdNodesGo, asObj, h, JValue.truthy]
  · intro fail ds s rc fs rest h
    rcases h with h | h <;> simp [stdEdgesGo, asObj, h, JValue.truthy]

/-- Witness for C6: one concrete record of each kind with an empty
identity field is skipped by the corresponding loop. -/
theorem C6_witness :
    (loadRelGo neverFail "d" GraphState.empty 0 0
        [.obj [("start_node", .obj [("properties", .obj [("name", .str "")])]),
               ("end_node", .obj [("properties", .obj [("name", .str "B")])])]]
      = loadRelGo neverFail "d" GraphState.empty 0 0 [])
  ∧ (stdNodesGo neverFail "d" GraphState.empty 0 [.obj [("id", .str "")]]
      = stdNodesGo neverFail "d" GraphState.empty 0 [])
  ∧ (stdEdgesGo neverFail "d" GraphState.empty 0
        [.obj [("source", .str ""), ("target", .str "2")]]
      = stdEdgesGo neverFail "d" GraphState.empty 0 []) :=
  ⟨C6_empty_identity_field_skipped.1 neverFail "d" GraphState.empty 0 0 _ _ _ _ _ []
      rfl rfl rfl rfl (Or.inl rfl),
   C6_empty_identity_field_skipped.2.1 neverFail "d" GraphState.empty 0 _ [] rfl,
   C6_empty_identity_field_skipped.2.2 neverFail "d" GraphState.empty 0 _ [] (Or.inl rfl)⟩

/-- C7: in both ingesters, a write failure raised by the storage layer
for one record is caught, that record's counters are not incremented,
and the loop proceeds to the next record: processing `record :: rest`
with a failing write equals processing `rest` alone, so no single
record's failure aborts the load or prevents later records. -/
theorem C7_write_failure_never_aborts_batch :
    (∀ (fail : WriteReq → Bool) (ds : String) (s : GraphState) (nc rc : Nat)
       (item : JValue) (w : RelWrite) (rest : List JValue),
       relProcess item = .ok (some w) →
       fail (.relMerge ds w) = true →
       loadRelGo fail ds s nc rc (item :: rest) = loadRelGo fail ds s nc rc rest)
  ∧ (∀ (fail : WriteReq → Bool) (ds : String) (s : GraphState) (nc : Nat)
       (fs : Props) (rest : List JValue),
       (lookupD fs "id" (.str "")).truthy = true →
       fail (.stdNode ds (lookupD fs "id" (.str ""))
               (lookupD fs "name" (lookupD fs "id" (.str "")))
               (lookupD fs "type" (.str "Entity"))
               (lookupD fs "attributes" (.arr []))) = true →
       stdNodesGo fail ds s nc (.obj fs :: rest) = stdNodesGo fail ds s nc rest)
  ∧ (∀ (fail : WriteReq → Bool) (ds : String) (s : GraphState) (rc : Nat)
       (fs : Props) (rest : List JValue),
       (lookupD fs "source" (.str "")).truthy = true →
       (lookupD fs "target" (.str "")).truthy = true →
       fail (.stdEdge ds (lookupD fs "source" (.str ""))
               (lookupD fs "target" (.str ""))
               (lookupD fs "relation" (.str "RELATED_TO"))
               (lookupD fs "weight" (.num 1))) = true →
       stdEdgesGo fail ds s rc (.obj fs :: rest) = stdEdgesGo fail ds s rc rest) := by
  refine ⟨?_, ?_, ?_⟩
  · intro fail ds s nc rc item w rest hw hf
    simp [loadRelGo, hw, hf]
  · intro fail ds s nc fs rest ht hf
    simp [stdNodesGo, asObj, ht, hf]
  · intro fail ds s rc fs rest hs2 ht2 hf
    simp [stdEdgesGo, asObj, hs2, ht2, hf]

/-- Witness for C7: under the always-raising oracle, one concrete
record of each kind is skipped and each loop proceeds. -/
theorem C7_witness :
    (loadRelGo alwaysFail "d" GraphState.empty 0 0
        [.obj [("start_node", .obj [("properties", .obj [("name", .str "A")])]),
               ("end_node", .obj [("properties", .obj [("name", .str "B")])])]]
      = loadRelGo alwaysFail "d" GraphState.empty 0 0 [])
  ∧ (stdNodesGo alwaysFail "d" GraphState.empty 0 [.obj [("id", .str "1")]]
      = stdNodesGo alwaysFail "d" GraphState.empty 0 [])
  ∧ (stdEdgesGo alwaysFail "d" GraphState.empty 0
        [.obj [("source", .str "1"), ("target", .str "2")]]
      = stdEdgesGo alwaysFail "d" GraphState.empty 0 []) :=
  ⟨C7_write_failure_never_aborts_batch.1 alwaysFail "d" GraphState.empty 0 0 _ _ [] rfl rfl,
   C7_write_failure_never_aborts_batch.2.1 alwaysFail "d" GraphState.empty 0 _ [] rfl rfl,
   C7_write_failure_never_aborts_batch.2.2 alwaysFail "d" GraphState.empty 0 _ [] rfl rfl rfl⟩


theorem load_relationship_list_format_ok_format (fail : WriteReq → Bool)
    (ds : String) (s : GraphState) (items : List JValue) (st : Stats)
    (h : (load_relationship_list_format fail ds s items).2 = .ok st) :
    st.format = "relationship_list" := by
  unfold load_relationship_list_format at h
  rcases hr : loadRelGo fail ds s 0 0 items with ⟨s1, r⟩
  rw [hr] at h
  rcases r with u | ⟨nc, rc⟩
  · cases h
  · cases h
    rfl

theorem load_standard_format_ok_format (fail : WriteReq → Bool)
    (ds : String) (s : GraphState) (gd : JValue) (st : Stats)
    (h : (load_standard_format fail ds s gd).2 = .ok st) :
    st.format = "standard" := by
  unfold load_standard_format at h
  rcases hg : asObj gd with _ | ifs <;> simp only [hg] at h
  · cases h
  · rcases hn : pyIter (lookupD ifs "nodes" (.arr [])) with u | nitems <;>
      simp only [hn] at h
    · cases h
    · rcases he : pyIter (lookupD ifs "edges" (.arr [])) with u | eitems <;>
        simp only [he] at h
      · cases h
      · rcases hsn : stdNodesGo fail ds s 0 nitems with ⟨s1, nc, ok1⟩
        cases ok1 <;> simp only [hsn] at h
        · cases h
        · rcases hse : stdEdgesGo fail ds s1 0 eitems with ⟨s2, rc, ok2⟩
          cases ok2 <;> simp only [hse] at h
          · cases h
          · cases h
            rfl

theorem load_graph_from_json_ok_format (fail : WriteReq → Bool)
    (fe : Bool) (dec : Option JValue) (ds : String) (ce : Bool)
    (s : GraphState) (st : Stats)
    (h : (load_graph_from_json fail fe dec ds ce s).2 = .ok st) :
    st.format = "relationship_list" ∨ st.format = "standard" := by
  unfold load_graph_from_json at h
  by_cases hf : fe = true
  · rcases dec with _ | gd
    · simp [hf] at h
    · by_cases hc : (ce && fail (.clearReq ds)) = true
      · simp [hf, hc] at h
      · simp only [hf, Bool.not_true, Bool.false_eq_true, if_false, hc, if_neg] at h
        rcases gd with _ | _ | _ | _ | items | fs
        all_goals dsimp only at h
        · cases h
        · cases h
        · cases h
        · cases h
        · rcases hr : load_relationship_list_format fail ds
              (if ce = true then clearGraph s ds else s) items with ⟨s2, r⟩
          rw [hr] at h
          rcases r with u | st2
          · cases h
          · cases h
            exact Or.inl (load_relationship_list_format_ok_format _ _ _ _ _ (by rw [hr]))
        · by_cases hn : (fs.any fun kv => kv.1 == "nodes") = true
          · simp only [hn, if_true] at h
            rcases hr : load_standard_format fail ds
                (if ce = true then clearGraph s ds else s) (.obj fs) with ⟨s2, r⟩
            rw [hr] at h
            rcases r with u | st2
            · cases h
            · cases h
              exact Or.inr (load_standard_format_ok_format _ _ _ _ _ (by rw [hr]))
          · simp [hn] at h
  · simp [hf] at h

/-- C9: for every input, `load_graph_to_neo4j` never propagates an
exception to its caller (it is a total function in the model): every
fatal failure — connect failure (driver creation or ping), or any
error raised by `load_graph_from_json` (NotFound, InvalidJSON,
UnknownFormat, clear failure, ingestion error) — yields the return
value `None`, and a non-None return carries exactly the fully
populated stats of a successful load, whose format field is one of
the two known shapes. -/
theorem C9_fatal_errors_become_none (env : Env) (ds : String)
    (clear_existing : Bool) (s0 : GraphState) :
    ((env.driverCreated = false ∨ env.pingOk = false) →
       (load_graph_to_neo4j env ds clear_existing s0).result = none)
  ∧ (∀ e : LoadError,
       (load_graph_from_json env.fail env.fileExists env.decoded ds clear_existing s0).2
           = .error e →
       (load_graph_to_neo4j env ds clear_existing s0).result = none)
  ∧ (∀ st : Stats,
       (load_graph_to_neo4j env ds clear_existing s0).result = some st →
       (load_graph_from_json env.fail env.fileExists env.decoded ds clear_existing s0).2
           = .ok st
       ∧ (st.format = "relationship_list" ∨ st.format = "standard")) := by
  refine ⟨?_, ?_, ?_⟩
  · intro h
    unfold load_graph_to_neo4j
    cases hd : env.driverCreated
    · simp
    · rcases h with h | h
      · rw [hd] at h
        cases h
      · simp [h]
  · intro e he
    unfold load_graph_to_neo4j
    cases hd : env.driverCreated
    · simp
    · cases hp : env.pingOk
      · simp
      · simp only [hd, hp, Bool.not_true, Bool.false_eq_true, if_false]
        rcases hr : load_graph_from_json env.fail env.fileExists env.decoded ds
            clear_existing s0 with ⟨s1, r⟩
        rw [hr] at he
        rcases r with u | st2
        · rfl
        · cases he
  · intro st hst
    unfold load_graph_to_neo4j at hst
    cases hd : env.driverCreated <;> rw [hd] at hst
    · cases hst
    · cases hp : env.pingOk <;> rw [hp] at hst
      · cases hst
      · simp only [Bool.not_true, Bool.false_eq_true, if_false] at hst
        rcases hr : load_graph_from_json env.fail env.fileExists env.decoded ds
            clear_existing s0 with ⟨s1, r⟩
        rw [hr] at hst
        rcases r with u | st2
        · cases hst
        · cases hst
          refine ⟨rfl, ?_⟩
          exact load_graph_from_json_ok_format _ _ _ _ _ _ _ (by rw [hr])

/-- Witness for C9: with invalid JSON (decode failure) the public
call returns `None`. -/
theorem C9_witness :
    (load_graph_to_neo4j ⟨true, true, true, none, neverFail⟩ "demo" true GraphState.empty).result
      = none :=
  (C9_fatal_errors_become_none ⟨true, true, true, none, neverFail⟩ "demo" true
      GraphState.empty).2.1 .invalidJSON rfl

/-- Well-formedness of a stored graph as the loader produces it:
internal node ids are distinct, and every relationship joins two
stored nodes carrying the same `dataset` property as the relationship
itself (both loader write paths only ever create a relationship
between two nodes they matched or merged in the same dataset). -/
def WFState (s : GraphState) : Prop :=
  (s.nodes.map (fun p => p.1)).Nodup ∧
  ∀ e ∈ s.edges, ∃ a ∈ s.nodes, ∃ b ∈ s.nodes,
    e.src = a.1 ∧ e.dst = b.1 ∧
    e.props.lookup "dataset" = a.2.lookup "dataset" ∧
    e.props.lookup "dataset" = b.2.lookup "dataset"

/-- A node of a different dataset is never among the ids deleted by
`clear_graph` (distinct ids make the dead-id list precise). -/
theorem not_mem_deadIds {s : GraphState}
    (hnd : (s.nodes.map (fun p => p.1)).Nodup)
    {a : Nat × Props} (ha : a ∈ s.nodes) {A : String}
    (hda : ¬ a.2.lookup "dataset" = some (.str A)) :
    ¬ ((s.nodes.filter (fun p => p.2.lookup "dataset" == some (.str A))).map
        (fun p => p.1)).contains a.1 = true := by
  intro hc
  rw [List.contains, List.elem_iff, List.mem_map] at hc
  obtain ⟨p, hp, hpa⟩ := hc
  rw [List.mem_filter] at hp
  have : p = a := List.inj_on_of_nodup_map hnd hp.1 ha hpa
  subst this
  exact hda (by simpa using hp.2)

/-- A node of the cleared dataset is among the deleted ids. -/
theorem mem_deadIds {s : GraphState}
    {a : Nat × Props} (ha : a ∈ s.nodes) {A : String}
    (hda : a.2.lookup "dataset" = some (.str A)) :
    ((s.nodes.filter (fun p => p.2.lookup "dataset" == some (.str A))).map
        (fun p => p.1)).contains a.1 = true := by
  rw [List.contains, List.elem_iff, List.mem_map]
  exact ⟨a, List.mem_filter.2 ⟨ha, by simpa using hda⟩, rfl⟩

/-- C4: for every pair of distinct dataset names A and B and every
well-formed stored graph state, `clear_graph A` removes exactly the
nodes whose dataset tag is A (and, by DETACH, the relationships
attached to them); nodes and relationships tagged with dataset B are
unchanged, even when they carry the same identity-key value as nodes
of A. -/
theorem C4_clear_is_dataset_scoped (s : GraphState) (A B : String)
    (hw : WFState s) (hAB : A ≠ B) :
    ((clearGraph s A).nodes
        = s.nodes.filter (fun p => !(p.2.lookup "dataset" == some (.str A))))
  ∧ ((clearGraph s A).nodes.filter (fun p => p.2.lookup "dataset" == some (.str B))
        = s.nodes.filter (fun p => p.2.lookup "dataset" == some (.str B)))
  ∧ ((clearGraph s A).edges.filter (fun e => e.props.lookup "dataset" == some (.str B))
        = s.edges.filter (fun e => e.props.lookup "dataset" == some (.str B)))
  ∧ (∀ e ∈ s.edges, e.props.lookup "dataset" = some (.str A) →
        e ∉ (clearGraph s A).edges) := by
  have hBA : ¬ (JValue.str B) = (JValue.str A) := by
    intro h
    cases h
    exact hAB rfl
  refine ⟨rfl, ?_, ?_, ?_⟩
  · show ((s.nodes.filter _).filter _) = _
    rw [List.filter_filter]
    refine List.filter_congr ?_
    intro p _
    cases hB : (p.2.lookup "dataset" == some (.str B)) with
    | false => simp
    | true =>
      have hpB : p.2.lookup "dataset" = some (.str B) := by simpa using hB
      simp [hpB, hBA]
  · show ((s.edges.filter _).filter _) = _
    rw [List.filter_filter]
    refine List.filter_congr ?_
    intro e he
    cases hB : (e.props.lookup "dataset" == some (.str B)) with
    | false => simp
    | true =>
      have heB : e.props.lookup "dataset" = some (.str B) := by simpa using hB
      obtain ⟨a, ha, b, hb, hsrc, hdst, hda, hdb⟩ := hw.2 e he
      have hna : ¬ a.2.lookup "dataset" = some (.str A) := by
        rw [← hda, heB]
        simpa using hBA
      have hnb : ¬ b.2.lookup "dataset" = some (.str A) := by
        rw [← hdb, heB]
        simpa using hBA
      have h1 := not_mem_deadIds hw.1 ha hna
      have h2 := not_mem_deadIds hw.1 hb hnb
      simp only [Bool.not_eq_true] at h1 h2
      rw [hsrc, hdst, h1, h2]
      rfl
  · intro e he heA hmem
    obtain ⟨a, ha, b, hb, hsrc, hdst, hda, hdb⟩ := hw.2 e he
    have h1 := mem_deadIds ha (hda ▸ heA)
    have hmem2 : e ∈ s.edges.filter (fun e =>
        !((s.nodes.filter (fun p => p.2.lookup "dataset" == some (.str A))).map
            (fun p => p.1)).contains e.src
        && !((s.nodes.filter (fun p => p.2.lookup "dataset" == some (.str A))).map
            (fun p => p.1)).contains e.dst) := hmem
    rw [List.mem_filter] at hmem2
    rw [hsrc] at hmem2
    rw [h1] at hmem2
    simp at hmem2

/-- Witness for C4: two datasets sharing the identity-key value `x`;
clearing A keeps B's node and B's self-loop intact and removes A's. -/
theorem C4_witness :
    (let s : GraphState := ⟨2,
        [(0, [("name", .str "x"), ("dataset", .str "A")]),
         (1, [("name", .str "x"), ("dataset", .str "B")])],
        [⟨0, 0, [("type", .str "r"), ("dataset", .str "A")]⟩,
         ⟨1, 1, [("type", .str "r"), ("dataset", .str "B")]⟩]⟩
     (clearGraph s "A").nodes
         = s.nodes.filter (fun p => !(p.2.lookup "dataset" == some (.str "A")))
     ∧ (clearGraph s "A").nodes.filter (fun p => p.2.lookup "dataset" == some (.str "B"))
         = s.nodes.filter (fun p => p.2.lookup "dataset" == some (.str "B"))
     ∧ (clearGraph s "A").edges.filter (fun e => e.props.lookup "dataset" == some (.str "B"))
         = s.edges.filter (fun e => e.props.lookup "dataset" == some (.str "B"))
     ∧ (∀ e ∈ s.edges, e.props.lookup "dataset" = some (.str "A") →
           e ∉ (clearGraph s "A").edges)) :=
  C4_clear_is_dataset_scoped _ "A" "B"
    ⟨by decide, by decide⟩ (by decide)

/-! ## Standard-format phase ordering (C5) -/

theorem mem_findIds {s : GraphState} {key : Props} {a : Nat}
    (h : a ∈ findIds s key) :
    ∃ p ∈ s.nodes, p.1 = a ∧ matchesKey key p.2 = true := by
  unfold findIds at h
  rw [List.mem_map] at h
  obtain ⟨p, hp, hpa⟩ := h
  rw [List.mem_filter] at hp
  exact ⟨p, hp.1, hpa, hp.2⟩

theorem matchesKey_idKey_dataset {i : JValue} {ds : String} {ps : Props}
    (h : matchesKey (idKey i ds) ps = true) :
    ps.lookup "dataset" = some (.str ds) := by
  simp [matchesKey, idKey] at h
  exact h.2

theorem mergeNodes_edges (s : GraphState) (key : Props)
    (onCreate onMatch : Props → Props) :
    (mergeNodes s key onCreate onMatch).1.edges = s.edges := by
  unfold mergeNodes
  dsimp only
  split <;> rfl

theorem mergeEdge_nodes (s : GraphState) (a b : Nat) (key : Props)
    (post : Props → Props) :
    (mergeEdge s a b key post).nodes = s.nodes := by
  unfold mergeEdge
  dsimp only
  split <;> rfl

theorem mergeEdge_mem {s : GraphState} {a b : Nat} {key : Props}
    {post : Props → Props} {e : EdgeRec}
    (h : e ∈ (mergeEdge s a b key post).edges) :
    e ∈ s.edges ∨ (e.src = a ∧ e.dst = b) := by
  unfold mergeEdge at h
  dsimp only at h
  split at h
  · rw [List.mem_map] at h
    obtain ⟨e0, he0, heq⟩ := h
    by_cases hM : (a == e0.src && b == e0.dst && matchesKey key e0.props) = true
    · rw [if_pos hM] at heq
      right
      simp only [Bool.and_eq_true, beq_iff_eq] at hM
      subst heq
      exact ⟨hM.1.1.symm, hM.1.2.symm⟩
    · rw [if_neg hM] at heq
      left
      rw [← heq]
      exact he0
  · rw [List.mem_append] at h
    rcases h with h | h
    · exact Or.inl h
    · right
      rw [List.mem_singleton] at h
      subst h
      exact ⟨rfl, rfl⟩

theorem foldl_mergeEdge_inner_nodes (a : Nat) (key : Props)
    (post : Props → Props) (bs : List Nat) :
    ∀ st : GraphState,
      (bs.foldl (fun st2 b => mergeEdge st2 a b key post) st).nodes = st.nodes := by
  induction bs with
  | nil => intro st; rfl
  | cons b bs ih =>
    intro st
    rw [List.foldl_cons, ih, mergeEdge_nodes]

theorem foldl_mergeEdge_inner_mem (a : Nat) (key : Props)
    (post : Props → Props) (bs : List Nat) :
    ∀ (st : GraphState) (e : EdgeRec),
      e ∈ (bs.foldl (fun st2 b => mergeEdge st2 a b key post) st).edges →
      e ∈ st.edges ∨ (e.src = a ∧ e.dst ∈ bs) := by
  induction bs with
  | nil => intro st e h; exact Or.inl h
  | cons b bs ih =>
    intro st e h
    rw [List.foldl_cons] at h
    rcases ih _ e h with h2 | h2
    · rcases mergeEdge_mem h2 with h3 | h3
      · exact Or.inl h3
      · exact Or.inr ⟨h3.1, by rw [h3.2]; exact List.mem_cons_self b bs⟩
    · exact Or.inr ⟨h2.1, List.mem_cons_of_mem b h2.2⟩

theorem foldl_mergeEdge_outer_nodes (key : Props) (post : Props → Props)
    (ais bis : List Nat) :
    ∀ st : GraphState,
      ((ais.foldl (fun st a => bis.foldl (fun st2 b => mergeEdge st2 a b key post) st) st)).nodes
        = st.nodes := by
  induction ais with
  | nil => intro st; rfl
  | cons a ais ih =>
    intro st
    rw [List.foldl_cons, ih, foldl_mergeEdge_inner_nodes]

theorem foldl_mergeEdge_outer_mem (key : Props) (post : Props → Props)
    (ais bis : List Nat) :
    ∀ (st : GraphState) (e : EdgeRec),
      e ∈ ((ais.foldl (fun st a => bis.foldl (fun st2 b => mergeEdge st2 a b key post) st) st)).edges →
      e ∈ st.edges ∨ (e.src ∈ ais ∧ e.dst ∈ bis) := by
  induction ais with
  | nil => intro st e h; exact Or.inl h
  | cons a ais ih =>
    intro st e h
    rw [List.foldl_cons] at h
    rcases ih _ e h with h2 | h2
    · rcases foldl_mergeEdge_inner_mem a key post bis st e h2 with h3 | h3
      · exact Or.inl h3
      · exact Or.inr ⟨by rw [h3.1]; exact List.mem_cons_self a ais, h3.2⟩
    · exact Or.inr ⟨List.mem_cons_of_mem a h2.1, h2.2⟩

theorem applyStdEdge_nodes (s : GraphState) (ds : String)
    (src tgt rel wt : JValue) :
    (applyStdEdge s ds src tgt rel wt).nodes = s.nodes := by
  unfold applyStdEdge
  exact foldl_mergeEdge_outer_nodes _ _ _ _ s

theorem applyStdEdge_mem {s : GraphState} {ds : String}
    {src tgt rel wt : JValue} {e : EdgeRec}
    (h : e ∈ (applyStdEdge s ds src tgt rel wt).edges) :
    e ∈ s.edges ∨
      ((∃ a ∈ s.nodes, e.src = a.1 ∧ a.2.lookup "dataset" = some (.str ds)) ∧
       (∃ b ∈ s.nodes, e.dst = b.1 ∧ b.2.lookup "dataset" = some (.str ds))) := by
  unfold applyStdEdge at h
  rcases foldl_mergeEdge_outer_mem _ _ _ _ s e h with h2 | h2
  · exact Or.inl h2
  · right
    obtain ⟨ha, hb⟩ := h2
    obtain ⟨p, hp, hpa, hpm⟩ := mem_findIds ha
    obtain ⟨q, hq, hqa, hqm⟩ := mem_findIds hb
    exact ⟨⟨p, hp, hpa.symm, matchesKey_idKey_dataset hpm⟩,
           ⟨q, hq, hqa.symm, matchesKey_idKey_dataset hqm⟩⟩

theorem stdNodesGo_edges (fail : WriteReq → Bool) (ds : String) :
    ∀ (items : List JValue) (s : GraphState) (nc : Nat),
      (stdNodesGo fail ds s nc items).1.edges = s.edges := by
  intro items
  induction items with
  | nil => intro s nc; rfl
  | cons node rest ih =>
    intro s nc
    unfold stdNodesGo
    rcases node with _ | _ | _ | _ | xs | fs <;> try rfl
    dsimp only [asObj]
    split
    · exact ih s nc
    · split
      · exact ih s nc
      · rw [ih]
        unfold applyStdNode
        exact mergeNodes_edges _ _ _ _

theorem stdEdgesGo_invariant (fail : WriteReq → Bool) (ds : String) :
    ∀ (items : List JValue) (s : GraphState) (rc : Nat),
      (stdEdgesGo fail ds s rc items).1.nodes = s.nodes ∧
      ∀ e ∈ (stdEdgesGo fail ds s rc items).1.edges,
        e ∈ s.edges ∨
        ((∃ a ∈ s.nodes, e.src = a.1 ∧ a.2.lookup "dataset" = some (.str ds)) ∧
         (∃ b ∈ s.nodes, e.dst = b.1 ∧ b.2.lookup "dataset" = some (.str ds))) := by
  intro items
  induction items with
  | nil => intro s rc; exact ⟨rfl, fun e he => Or.inl he⟩
  | cons edge rest ih =>
    intro s rc
    unfold stdEdgesGo
    rcases edge with _ | _ | _ | _ | xs | fs <;>
      try exact ⟨rfl, fun e he => Or.inl he⟩
    dsimp only [asObj]
    split
    · exact ih s rc
    · split
      · exact ih s rc
      · have hn := applyStdEdge_nodes s ds (lookupD fs "source" (.str ""))
          (lookupD fs "target" (.str "")) (lookupD fs "relation" (.str "RELATED_TO"))
          (lookupD fs "weight" (.num 1))
        obtain ⟨ihn, ihe⟩ := ih (applyStdEdge s ds (lookupD fs "source" (.str ""))
          (lookupD fs "target" (.str "")) (lookupD fs "relation" (.str "RELATED_TO"))
          (lookupD fs "weight" (.num 1))) (rc + 1)
        refine ⟨by rw [ihn, hn], ?_⟩
        intro e he
        rcases ihe e he with h2 | h2
        · rcases applyStdEdge_mem h2 with h3 | h3
          · exact Or.inl h3
          · exact Or.inr h3
        · rw [hn] at h2
          exact Or.inr h2

/-- The standard-format document of the spec's two-node scenario
(Alice knows Bob, dataset `demo2`). -/
def stdScenarioDoc : JValue := .obj [
  ("nodes", .arr [
     .obj [("id", .str "1"), ("name", .str "Alice"), ("type", .str "person")],
     .obj [("id", .str "2"), ("name", .str "Bob"), ("type", .str "person")]]),
  ("edges", .arr [
     .obj [("source", .str "1"), ("target", .str "2"),
           ("relation", .str "knows"), ("weight", .num 2)]])]

/-- C5: in standard-format loading, every node write of the input's
nodes sequence is issued before any edge write — the node phase never
touches relationships and the edge phase never touches nodes —
and consequently the loader never creates an edge whose two endpoints
were not both already present among the stored nodes of the dataset at
the moment the edge is written (the node set is constant during the
edge phase, so "at write time" is the final node set). -/
theorem C5_all_nodes_written_before_any_edge (fail : WriteReq → Bool) (ds : String) :
    (∀ (items : List JValue) (s : GraphState) (nc : Nat),
        (stdNodesGo fail ds s nc items).1.edges = s.edges)
  ∧ (∀ (items : List JValue) (s : GraphState) (rc : Nat),
        (stdEdgesGo fail ds s rc items).1.nodes = s.nodes)
  ∧ (∀ (gd : JValue) (s0 : GraphState),
        ∀ e ∈ (load_standard_format fail ds s0 gd).1.edges, e ∉ s0.edges →
          (∃ a ∈ (load_standard_format fail ds s0 gd).1.nodes,
              e.src = a.1 ∧ a.2.lookup "dataset" = some (.str ds)) ∧
          (∃ b ∈ (load_standard_format fail ds s0 gd).1.nodes,
              e.dst = b.1 ∧ b.2.lookup "dataset" = some (.str ds))) := by
  refine ⟨stdNodesGo_edges fail ds,
          fun items s rc => (stdEdgesGo_invariant fail ds items s rc).1, ?_⟩
  intro gd s0 e he hnot
  unfold load_standard_format at he ⊢
  rcases hg : asObj gd with _ | ifs <;> simp only [hg] at he ⊢
  · exact absurd he hnot
  · rcases hn : pyIter (lookupD ifs "nodes" (.arr [])) with u | nitems <;>
      simp only [hn] at he ⊢
    · exact absurd he hnot
    · rcases hed : pyIter (lookupD ifs "edges" (.arr [])) with u | eitems <;>
        simp only [hed] at he ⊢
      · exact absurd he hnot
      · rcases hsn : stdNodesGo fail ds s0 0 nitems with ⟨s1, nc, ok1⟩
        have hs1e : s1.edges = s0.edges := by
          have h0 := stdNodesGo_edges fail ds nitems s0 0
          rw [hsn] at h0
          exact h0
        cases ok1 <;> simp only [hsn] at he ⊢
        · rw [hs1e] at he
          exact absurd he hnot
        · rcases hse : stdEdgesGo fail ds s1 0 eitems with ⟨s2, rc, ok2⟩
          have hinv := stdEdgesGo_invariant fail ds eitems s1 0
          rw [hse] at hinv
          cases ok2 <;> simp only [hse] at he ⊢ <;>
            rcases hinv.2 e he with h2 | h2
          · rw [hs1e] at h2
            exact absurd h2 hnot
          · rw [hinv.1]
            exact h2
          · rw [hs1e] at h2
            exact absurd h2 hnot
          · rw [hinv.1]
            exact h2

/-- Witness for C5: the scenario edge between Alice and Bob has both
endpoints among the stored nodes of dataset `demo2`. -/
theorem C5_witness :
    (∃ a ∈ (load_standard_format neverFail "demo2" GraphState.empty stdScenarioDoc).1.nodes,
        (⟨0, 1, [("type", .str "knows"), ("dataset", .str "demo2"),
                 ("weight", .num 2)]⟩ : EdgeRec).src = a.1
          ∧ a.2.lookup "dataset" = some (.str "demo2"))
  ∧ (∃ b ∈ (load_standard_format neverFail "demo2" GraphState.empty stdScenarioDoc).1.nodes,
        (⟨0, 1, [("type", .str "knows"), ("dataset", .str "demo2"),
                 ("weight", .num 2)]⟩ : EdgeRec).dst = b.1
          ∧ b.2.lookup "dataset" = some (.str "demo2")) :=
  (C5_all_nodes_written_before_any_edge neverFail "demo2").2.2 stdScenarioDoc
    GraphState.empty
    ⟨0, 1, [("type", .str "knows"), ("dataset", .str "demo2"), ("weight", .num 2)]⟩
    (by decide) (by decide)

/-! ## Property-map lemmas for the merge-idempotence claim (C3) -/

theorem setProp_ne_null (ps : Props) (k : String) (v : JValue) (hv : v ≠ .null) :
    setProp ps k v =
      if ps.any (fun kv => kv.1 == k) then
        ps.map (fun kv => if kv.1 == k then (k, v) else kv)
      else ps ++ [(k, v)] := by
  cases v <;> first | exact absurd rfl hv | rfl

theorem lookup_filter_ne (ps : Props) (k : String) :
    (ps.filter (fun kv => kv.1 != k)).lookup k = none := by
  induction ps with
  | nil => rfl
  | cons kv ps ih =>
    obtain ⟨k1, v1⟩ := kv
    rw [List.filter_cons]
    by_cases h : k1 = k
    · simp [h, ih]
    · have hb : ((k1, v1).1 != k) = true := by simp [h]
      rw [if_pos hb, List.lookup_cons, beq_false_of_ne (Ne.symm h)]
      exact ih

theorem lookup_filter_other (ps : Props) (k k2 : String) (h : k2 ≠ k) :
    (ps.filter (fun kv => kv.1 != k)).lookup k2 = ps.lookup k2 := by
  induction ps with
  | nil => rfl
  | cons kv ps ih =>
    obtain ⟨k1, v1⟩ := kv
    rw [List.filter_cons]
    by_cases h1 : k1 = k
    · have hb : ((k1, v1).1 != k) = false := by simp [h1]
      rw [hb]
      simp only [Bool.false_eq_true, if_false]
      rw [ih, List.lookup_cons]
      have hc : (k2 == k1) = false := beq_false_of_ne (fun he => h (he.trans h1))
      rw [hc]
    · have hb : ((k1, v1).1 != k) = true := by simp [h1]
      rw [if_pos hb, List.lookup_cons, List.lookup_cons]
      cases hc : (k2 == k1)
      · exact ih
      · rfl

theorem lookup_map_set (ps : Props) (k : String) (v : JValue)
    (h : ps.any (fun kv => kv.1 == k) = true) :
    (ps.map (fun kv => if kv.1 == k then (k, v) else kv)).lookup k = some v := by
  induction ps with
  | nil => simp at h
  | cons kv ps ih =>
    obtain ⟨k1, v1⟩ := kv
    rw [List.map_cons]
    by_cases h1 : k1 = k
    · have hb : ((k1, v1).1 == k) = true := by simp [h1]
      simp only [hb, if_true]
      rw [List.lookup_cons, beq_self_eq_true]
    · have hb : ((k1, v1).1 == k) = false := beq_false_of_ne h1
      rw [List.any_cons] at h
      simp only [hb, Bool.false_or] at h
      simp only [hb, Bool.false_eq_true, if_false]
      rw [List.lookup_cons, beq_false_of_ne (Ne.symm h1)]
      exact ih h

theorem lookup_append_new (ps : Props) (k : String) (v : JValue)
    (h : ps.any (fun kv => kv.1 == k) = false) :
    (ps ++ [(k, v)]).lookup k = some v := by
  induction ps with
  | nil =>
    rw [List.nil_append, List.lookup_cons, beq_self_eq_true]
  | cons kv ps ih =>
    obtain ⟨k1, v1⟩ := kv
    rw [List.cons_append, List.lookup_cons]
    rw [List.any_cons] at h
    have h1 : (k1 == k) = false := by
      cases hc : ((k1, v1).1 == k)
      · rfl
      · rw [hc] at h
        simp at h
    simp only [h1, Bool.false_or] at h
    have hne : ¬ k1 = k := by
      intro he
      rw [he] at h1
      simp at h1
    rw [beq_false_of_ne (Ne.symm hne)]
    exact ih h

theorem lookup_map_set_other (ps : Props) (k k2 : String) (v : JValue) (h : k2 ≠ k) :
    (ps.map (fun kv => if kv.1 == k then (k, v) else kv)).lookup k2 = ps.lookup k2 := by
  induction ps with
  | nil => rfl
  | cons kv ps ih =>
    obtain ⟨k1, v1⟩ := kv
    rw [List.map_cons]
    by_cases h1 : k1 = k
    · have hb : ((k1, v1).1 == k) = true := by simp [h1]
      simp only [hb, if_true]
      rw [List.lookup_cons, List.lookup_cons, beq_false_of_ne h,
          beq_false_of_ne (fun he => h (he.trans h1))]
      exact ih
    · have hb : ((k1, v1).1 == k) = false := beq_false_of_ne h1
      simp only [hb, Bool.false_eq_true, if_false]
      rw [List.lookup_cons, List.lookup_cons]
      cases hc : (k2 == k1)
      · exact ih
      · rfl

theorem lookup_append_other (ps : Props) (k k2 : String) (v : JValue) (h : k2 ≠ k) :
    (ps ++ [(k, v)]).lookup k2 = ps.lookup k2 := by
  induction ps with
  | nil =>
    rw [List.nil_append, List.lookup_cons, beq_false_of_ne h]
  | cons kv ps ih =>
    obtain ⟨k1, v1⟩ := kv
    rw [List.cons_append, List.lookup_cons, List.lookup_cons]
    cases hc : (k2 == k1)
    · exact ih
    · rfl

theorem lookup_setProp_self (ps : Props) (k : String) (v : JValue) (hv : v ≠ .null) :
    (setProp ps k v).lookup k = some v := by
  rw [setProp_ne_null ps k v hv]
  split
  · exact lookup_map_set ps k v (by assumption)
  · rename_i hany
    exact lookup_append_new ps k v (Bool.eq_false_iff.mpr hany)

theorem lookup_setProp_other (ps : Props) (k k2 : String) (v : JValue) (h : k2 ≠ k) :
    (setProp ps k v).lookup k2 = ps.lookup k2 := by
  by_cases hv : v = .null
  · subst hv
    exact lookup_filter_other ps k k2 h
  · rw [setProp_ne_null ps k v hv]
    split
    · exact lookup_map_set_other ps k k2 v h
    · exact lookup_append_other ps k k2 v h

theorem lookup_addProps_not_mem (qs : Props) (k : String) :
    ∀ ps : Props, (∀ kv ∈ qs, kv.1 ≠ k) →
    (addProps ps qs).lookup k = ps.lookup k := by
  induction qs with
  | nil => intro ps _; rfl
  | cons kv qs ih =>
    intro ps h
    show (addProps (setProp ps kv.1 kv.2) qs).lookup k = ps.lookup k
    rw [ih _ (fun kv2 hm => h kv2 (List.mem_cons_of_mem _ hm))]
    exact lookup_setProp_other ps kv.1 k kv.2
      (fun he => h kv (List.mem_cons_self _ _) he.symm)

theorem lookup_addProps_stable (qs : Props) (k : String) (v : JValue)
    (hv : v ≠ .null) (h : ∀ kv ∈ qs, kv.1 = k → kv.2 = v) :
    ∀ ps : Props, ps.lookup k = some v →
    (addProps ps qs).lookup k = some v := by
  induction qs with
  | nil => intro ps hp; exact hp
  | cons kv qs ih =>
    intro ps hp
    show (addProps (setProp ps kv.1 kv.2) qs).lookup k = some v
    refine ih (fun kv2 hm hk => h kv2 (List.mem_cons_of_mem _ hm) hk) _ ?_
    by_cases hk : kv.1 = k
    · have hkv : kv.2 = v := h kv (List.mem_cons_self _ _) hk
      rw [hk, hkv]
      exact lookup_setProp_self ps k v hv
    · rw [lookup_setProp_other ps kv.1 k kv.2 (fun he => hk he.symm)]
      exact hp

/-! ## Merge characterization for C3 -/

/-- At most one stored node matches any `(name, dataset)` merge key —
the invariant Neo4j MERGE relies on for idempotence. -/
def UniqueNames (ds : String) (s : GraphState) : Prop :=
  ∀ n : JValue, (findIds s (nameKey n ds)).length ≤ 1

/-- A record write whose raw property snapshots do not tamper with the
reserved keys: no `dataset` entry, and every `name` entry carries the
extracted endpoint name (both always true of JSON decoded by Python,
whose objects have unique keys, unless a record explicitly smuggles a
`dataset` property). -/
def WGoodW (w : RelWrite) : Prop :=
  (∀ kv ∈ w.startProps, kv.1 ≠ "dataset") ∧
  (∀ kv ∈ w.startProps, kv.1 = "name" → kv.2 = w.startName) ∧
  (∀ kv ∈ w.endProps, kv.1 ≠ "dataset") ∧
  (∀ kv ∈ w.endProps, kv.1 = "name" → kv.2 = w.endName) ∧
  w.startName ≠ .null ∧ w.endName ≠ .null

instance (w : RelWrite) : Decidable (WGoodW w) := by
  unfold WGoodW
  infer_instance

/-- A `RELATES` relationship of the given type and dataset between the
two given nodes is stored. -/
def edgeExistsFor (ds : String) (s : GraphState) (r : JValue) (a b : Nat) : Prop :=
  ∃ e ∈ s.edges, e.src = a ∧ e.dst = b ∧ matchesKey (relKey r ds) e.props = true

/-- The stored graph already reflects one record's write: unique
endpoint nodes exist for both names and the relationship exists. -/
def HasW (ds : String) (s : GraphState) (w : RelWrite) : Prop :=
  ∃ a b : Nat, findIds s (nameKey w.startName ds) = [a] ∧
    findIds s (nameKey w.endName ds) = [b] ∧
    edgeExistsFor ds s w.relation a b

/-- The writes of a relationship-list batch that reach the database
and succeed (skip rules applied, failing writes removed). -/
def successWrites (fail : WriteReq → Bool) (ds : String) (items : List JValue) :
    List RelWrite :=
  items.filterMap (fun item =>
    match relProcess item with
    | .ok (some w) => if fail (.relMerge ds w) then none else some w
    | _ => none)

theorem matchesKey_nameKey (n : JValue) (ds : String) (ps : Props) :
    matchesKey (nameKey n ds) ps = true ↔
      ps.lookup "name" = some n ∧ ps.lookup "dataset" = some (.str ds) := by
  simp [matchesKey, nameKey]

theorem matchesKey_nameKey_eq (n : JValue) (ds : String) (ps : Props) :
    matchesKey (nameKey n ds) ps
      = ((ps.lookup "name" == some n) && (ps.lookup "dataset" == some (.str ds))) := by
  simp [matchesKey, nameKey]

theorem singleton_of_ne_nil_of_len_le_one {α : Type} {l : List α}
    (h1 : l ≠ []) (h2 : l.length ≤ 1) : ∃ a, l = [a] := by
  cases l with
  | nil => exact absurd rfl h1
  | cons a t =>
    cases t with
    | nil => exact ⟨a, rfl⟩
    | cons b t2 => simp at h2

theorem findIds_congr {s s2 : GraphState} (h : s.nodes = s2.nodes) (key : Props) :
    findIds s key = findIds s2 key := by
  unfold findIds
  rw [h]

theorem UniqueNames_congr {ds : String} {s s2 : GraphState}
    (h : s.nodes = s2.nodes) (hu : UniqueNames ds s) : UniqueNames ds s2 := by
  intro n
  rw [← findIds_congr h]
  exact hu n

theorem findIds_map_upd (upd : Nat × Props → Nat × Props) (key : Props) :
    ∀ l : List (Nat × Props),
    (∀ p ∈ l, (upd p).1 = p.1) →
    (∀ p ∈ l, matchesKey key (upd p).2 = matchesKey key p.2) →
    ((l.map upd).filter (fun p => matchesKey key p.2)).map (fun p => p.1)
      = (l.filter (fun p => matchesKey key p.2)).map (fun p => p.1) := by
  intro l
  induction l with
  | nil => intro _ _; rfl
  | cons p l ih =>
    intro hid hm
    have h1 := hm p (List.mem_cons_self _ _)
    have h2 := hid p (List.mem_cons_self _ _)
    have ihl := ih (fun q hq => hid q (List.mem_cons_of_mem _ hq))
      (fun q hq => hm q (List.mem_cons_of_mem _ hq))
    rw [List.map_cons, List.filter_cons, List.filter_cons, h1]
    cases hmp : matchesKey key p.2
    · simp only [Bool.false_eq_true, if_false]
      exact ihl
    · simp only [if_true]
      rw [List.map_cons, List.map_cons, h2, ihl]

theorem mergeNodes_match_findIds (s : GraphState) (n0 : JValue) (ds : String)
    (f g : Props → Props)
    (hg : ∀ ps : Props, ps.lookup "name" = some n0 →
          ps.lookup "dataset" = some (.str ds) →
          (g ps).lookup "name" = some n0 ∧ (g ps).lookup "dataset" = some (.str ds))
    (hne : findIds s (nameKey n0 ds) ≠ []) :
    (∀ n : JValue, findIds (mergeNodes s (nameKey n0 ds) f g).1 (nameKey n ds)
        = findIds s (nameKey n ds)) ∧
    (mergeNodes s (nameKey n0 ds) f g).2 = findIds s (nameKey n0 ds) ∧
    (mergeNodes s (nameKey n0 ds) f g).1.nodes.length = s.nodes.length ∧
    (mergeNodes s (nameKey n0 ds) f g).1.edges = s.edges := by
  have hbr : ¬ (findIds s (nameKey n0 ds)).isEmpty = true := by
    cases hi : findIds s (nameKey n0 ds)
    · exact absurd hi hne
    · simp
  unfold mergeNodes
  dsimp only
  rw [if_neg hbr]
  refine ⟨?_, rfl, by simp, rfl⟩
  intro n
  show ((s.nodes.map fun p =>
      if matchesKey (nameKey n0 ds) p.2 then (p.1, g p.2) else p).filter
      (fun p => matchesKey (nameKey n ds) p.2)).map (fun p => p.1)
    = findIds s (nameKey n ds)
  refine findIds_map_upd _ _ s.nodes (fun p hp => ?_) (fun p hp => ?_)
  · cases hmp : matchesKey (nameKey n0 ds) p.2 <;> simp [hmp]
  · cases hmp : matchesKey (nameKey n0 ds) p.2
    · simp [hmp]
    · obtain ⟨h1, h2⟩ := (matchesKey_nameKey n0 ds p.2).mp hmp
      obtain ⟨g1, g2⟩ := hg p.2 h1 h2
      simp only [hmp, if_true]
      rw [matchesKey_nameKey_eq, matchesKey_nameKey_eq]
      show ((g p.2).lookup "name" == some n && ((g p.2).lookup "dataset" == some (.str ds)))
        = (p.2.lookup "name" == some n && (p.2.lookup "dataset" == some (.str ds)))
      rw [g1, g2, h1, h2]

theorem mergeNodes_create_findIds (s : GraphState) (n0 : JValue) (ds : String)
    (f g : Props → Props)
    (hfn : (f (nameKey n0 ds)).lookup "name" = some n0)
    (hfd : (f (nameKey n0 ds)).lookup "dataset" = some (.str ds))
    (hemp : findIds s (nameKey n0 ds) = []) :
    (∀ n : JValue, findIds (mergeNodes s (nameKey n0 ds) f g).1 (nameKey n ds)
        = if n = n0 then [s.nextId] else findIds s (nameKey n ds)) ∧
    (mergeNodes s (nameKey n0 ds) f g).2 = [s.nextId] ∧
    (mergeNodes s (nameKey n0 ds) f g).1.nodes.length = s.nodes.length + 1 ∧
    (mergeNodes s (nameKey n0 ds) f g).1.edges = s.edges := by
  have hbr : (findIds s (nameKey n0 ds)).isEmpty = true := by
    rw [hemp]
    rfl
  unfold mergeNodes
  dsimp only
  rw [if_pos hbr]
  refine ⟨?_, rfl, by simp, rfl⟩
  intro n
  show (((s.nodes ++ [(s.nextId, f (nameKey n0 ds))]).filter
      (fun p => matchesKey (nameKey n ds) p.2)).map (fun p => p.1))
    = if n = n0 then [s.nextId] else findIds s (nameKey n ds)
  rw [List.filter_append, List.map_append]
  by_cases hn : n = n0
  · subst hn
    have hm : matchesKey (nameKey n ds) (f (nameKey n ds)) = true :=
      (matchesKey_nameKey n ds _).mpr ⟨hfn, hfd⟩
    rw [List.filter_cons, hm]
    simp only [if_true, if_pos rfl, List.filter_nil, List.map_cons, List.map_nil]
    have : findIds s (nameKey n ds) = [] := hemp
    unfold findIds at this
    rw [this]
    rfl
  · have hm : matchesKey (nameKey n ds) (f (nameKey n0 ds)) = false := by
      rw [matchesKey_nameKey_eq, hfn, hfd]
      have : (some n0 == some n) = false := by
        refine beq_eq_false_iff_ne.mpr ?_
        intro he
        cases he
        exact hn rfl
      rw [this]
      rfl
    rw [List.filter_cons, hm]
    simp only [Bool.false_eq_true, if_false, List.filter_nil, List.map_nil,
               List.append_nil, if_neg hn]
    rfl

theorem matchesKey_relKey_self (r : JValue) (ds : String) :
    matchesKey (relKey r ds) (relKey r ds) = true := by
  have h1 : ("dataset" == "type") = false := by decide
  simp [matchesKey, relKey, List.lookup_cons, h1]

theorem map_ite_id (c : EdgeRec → Bool) :
    ∀ l : List EdgeRec,
    l.map (fun e => if c e then { e with props := id e.props } else e) = l := by
  intro l
  induction l with
  | nil => rfl
  | cons e l ih =>
    rw [List.map_cons, ih]
    congr 1
    cases hc : c e
    · simp
    · cases e
      rfl

theorem mergeEdge_id_cases (s : GraphState) (a b : Nat) (r : JValue) (ds : String) :
    (mergeEdge s a b (relKey r ds) id).nodes = s.nodes ∧
    (∃ t, (mergeEdge s a b (relKey r ds) id).edges = s.edges ++ t) ∧
    edgeExistsFor ds (mergeEdge s a b (relKey r ds) id) r a b ∧
    (edgeExistsFor ds s r a b → (mergeEdge s a b (relKey r ds) id).edges = s.edges) := by
  unfold mergeEdge
  dsimp only
  cases hany : s.edges.any
      (fun e => a == e.src && b == e.dst && matchesKey (relKey r ds) e.props)
  · simp only [Bool.false_eq_true, if_false]
    refine ⟨by trivial, ⟨[⟨a, b, id (relKey r ds)⟩], rfl⟩, ?_, ?_⟩
    · refine ⟨⟨a, b, id (relKey r ds)⟩, ?_, rfl, rfl, ?_⟩
      · exact List.mem_append_right _ (List.mem_singleton.mpr rfl)
      · exact matchesKey_relKey_self r ds
    · intro hex
      obtain ⟨e, he, h1, h2, h3⟩ := hex
      exfalso
      have : (s.edges.any
          (fun e => a == e.src && b == e.dst && matchesKey (relKey r ds) e.props)) = true := by
        rw [List.any_eq_true]
        refine ⟨e, he, ?_⟩
        rw [h1, h2, h3]
        simp
      rw [this] at hany
      cases hany
  · simp only [if_true]
    have hmap := map_ite_id
      (fun e => a == e.src && b == e.dst && matchesKey (relKey r ds) e.props) s.edges
    rw [hmap]
    refine ⟨by trivial, ⟨[], by rw [List.append_nil]⟩, ?_, fun _ => rfl⟩
    rw [List.any_eq_true] at hany
    obtain ⟨e, he, hM⟩ := hany
    simp only [Bool.and_eq_true, beq_iff_eq] at hM
    exact ⟨e, he, hM.1.1.symm, hM.1.2.symm, hM.2⟩

theorem foldl_mergeEdge_id_inner_extends (a : Nat) (r : JValue) (ds : String)
    (bs : List Nat) :
    ∀ st : GraphState,
      (bs.foldl (fun st2 b => mergeEdge st2 a b (relKey r ds) id) st).nodes = st.nodes ∧
      ∃ t, (bs.foldl (fun st2 b => mergeEdge st2 a b (relKey r ds) id) st).edges
            = st.edges ++ t := by
  induction bs with
  | nil => intro st; exact ⟨rfl, ⟨[], by simp⟩⟩
  | cons b bs ih =>
    intro st
    rw [List.foldl_cons]
    obtain ⟨hn, t2, ht2⟩ := ih (mergeEdge st a b (relKey r ds) id)
    obtain ⟨hn1, ⟨t1, ht1⟩, _, _⟩ := mergeEdge_id_cases st a b r ds
    refine ⟨by rw [hn, hn1], t1 ++ t2, ?_⟩
    rw [ht2, ht1, List.append_assoc]

theorem foldl_mergeEdge_id_extends (r : JValue) (ds : String)
    (ais bis : List Nat) :
    ∀ st : GraphState,
      ((ais.foldl (fun st a => bis.foldl
          (fun st2 b => mergeEdge st2 a b (relKey r ds) id) st) st)).nodes = st.nodes ∧
      ∃ t, ((ais.foldl (fun st a => bis.foldl
          (fun st2 b => mergeEdge st2 a b (relKey r ds) id) st) st)).edges
            = st.edges ++ t := by
  induction ais with
  | nil => intro st; exact ⟨rfl, ⟨[], by simp⟩⟩
  | cons a ais ih =>
    intro st
    rw [List.foldl_cons]
    obtain ⟨hn2, t2, ht2⟩ :=
      ih (bis.foldl (fun st2 b => mergeEdge st2 a b (relKey r ds) id) st)
    obtain ⟨hn1, t1, ht1⟩ := foldl_mergeEdge_id_inner_extends a r ds bis st
    refine ⟨by rw [hn2, hn1], t1 ++ t2, ?_⟩
    rw [ht2, ht1, List.append_assoc]

theorem edgeExistsFor_extends {ds : String} {s s2 : GraphState} {r : JValue}
    {a b : Nat} (h : ∃ t, s2.edges = s.edges ++ t)
    (he : edgeExistsFor ds s r a b) : edgeExistsFor ds s2 r a b := by
  obtain ⟨t, ht⟩ := h
  obtain ⟨e, hm, h1, h2, h3⟩ := he
  exact ⟨e, by rw [ht]; exact List.mem_append_left _ hm, h1, h2, h3⟩

theorem lookup_nameKey_name (nm : JValue) (ds : String) :
    (nameKey nm ds).lookup "name" = some nm := by
  simp only [nameKey, List.lookup_cons, beq_self_eq_true]

theorem lookup_nameKey_dataset (nm : JValue) (ds : String) :
    (nameKey nm ds).lookup "dataset" = some (.str ds) := by
  have h1 : ("dataset" == "name") = false := by decide
  simp only [nameKey, List.lookup_cons, h1, beq_self_eq_true]

theorem relCreate_lookup_name (nm t : JValue) (qs : Props) (ds : String)
    (hnm : nm ≠ .null)
    (hq2 : ∀ kv ∈ qs, kv.1 = "name" → kv.2 = nm) :
    (addProps (setProp (nameKey nm ds) "type" t) qs).lookup "name" = some nm := by
  refine lookup_addProps_stable qs "name" nm hnm hq2 _ ?_
  rw [lookup_setProp_other _ "type" "name" t (by decide)]
  exact lookup_nameKey_name nm ds

theorem relCreate_lookup_dataset (nm t : JValue) (qs : Props) (ds : String)
    (hq1 : ∀ kv ∈ qs, kv.1 ≠ "dataset") :
    (addProps (setProp (nameKey nm ds) "type" t) qs).lookup "dataset"
      = some (.str ds) := by
  rw [lookup_addProps_not_mem qs "dataset" _ hq1,
      lookup_setProp_other _ "type" "dataset" t (by decide)]
  exact lookup_nameKey_dataset nm ds

theorem relMatch_lookup (nm : JValue) (qs : Props) (ds : String)
    (hnm : nm ≠ .null) (hq1 : ∀ kv ∈ qs, kv.1 ≠ "dataset")
    (hq2 : ∀ kv ∈ qs, kv.1 = "name" → kv.2 = nm) :
    ∀ ps : Props, ps.lookup "name" = some nm →
      ps.lookup "dataset" = some (.str ds) →
      (addProps ps qs).lookup "name" = some nm ∧
      (addProps ps qs).lookup "dataset" = some (.str ds) := by
  intro ps hp1 hp2
  refine ⟨lookup_addProps_stable qs "name" nm hnm hq2 ps hp1, ?_⟩
  rw [lookup_addProps_not_mem qs "dataset" ps hq1]
  exact hp2

theorem mergeNodes_summary (s : GraphState) (nm t : JValue) (qs : Props) (ds : String)
    (hnm : nm ≠ .null) (hq1 : ∀ kv ∈ qs, kv.1 ≠ "dataset")
    (hq2 : ∀ kv ∈ qs, kv.1 = "name" → kv.2 = nm)
    (hu : UniqueNames ds s) :
    ∃ a : Nat,
      (mergeNodes s (nameKey nm ds)
        (fun n => addProps (setProp n "type" t) qs)
        (fun n => addProps n qs)).2 = [a] ∧
      findIds (mergeNodes s (nameKey nm ds)
        (fun n => addProps (setProp n "type" t) qs)
        (fun n => addProps n qs)).1 (nameKey nm ds) = [a] ∧
      (∀ n : JValue, findIds s (nameKey n ds) ≠ [] →
          findIds (mergeNodes s (nameKey nm ds)
            (fun n => addProps (setProp n "type" t) qs)
            (fun n => addProps n qs)).1 (nameKey n ds) = findIds s (nameKey n ds)) ∧
      UniqueNames ds (mergeNodes s (nameKey nm ds)
        (fun n => addProps (setProp n "type" t) qs)
        (fun n => addProps n qs)).1 ∧
      (mergeNodes s (nameKey nm ds)
        (fun n => addProps (setProp n "type" t) qs)
        (fun n => addProps n qs)).1.edges = s.edges ∧
      (findIds s (nameKey nm ds) ≠ [] →
          findIds s (nameKey nm ds) = [a] ∧
          (mergeNodes s (nameKey nm ds)
            (fun n => addProps (setProp n "type" t) qs)
            (fun n => addProps n qs)).1.nodes.length = s.nodes.length) := by
  by_cases hA : findIds s (nameKey nm ds) = []
  · obtain ⟨hfi, h2, hlen, hedges⟩ :=
      mergeNodes_create_findIds s nm ds
        (fun n => addProps (setProp n "type" t) qs)
        (fun n => addProps n qs)
        (relCreate_lookup_name nm t qs ds hnm hq2)
        (relCreate_lookup_dataset nm t qs ds hq1) hA
    refine ⟨s.nextId, h2, ?_, ?_, ?_, hedges, fun hc => absurd hA hc⟩
    · rw [hfi nm, if_pos rfl]
    · intro n hn
      rw [hfi n]
      by_cases he : n = nm
      · subst he
        exact absurd hA hn
      · rw [if_neg he]
    · intro n
      rw [hfi n]
      by_cases he : n = nm
      · simp [he]
      · rw [if_neg he]
        exact hu n
  · obtain ⟨hfi, h2, hlen, hedges⟩ :=
      mergeNodes_match_findIds s nm ds
        (fun n => addProps (setProp n "type" t) qs)
        (fun n => addProps n qs)
        (relMatch_lookup nm qs ds hnm hq1 hq2) hA
    obtain ⟨a, ha⟩ := singleton_of_ne_nil_of_len_le_one hA (hu nm)
    refine ⟨a, ?_, ?_, ?_, ?_, hedges, fun _ => ⟨ha, hlen⟩⟩
    · rw [h2, ha]
    · rw [hfi nm, ha]
    · intro n _
      exact hfi n
    · intro n
      rw [hfi n]
      exact hu n

theorem applyRelMerge_main (s : GraphState) (ds : String) (w : RelWrite)
    (hw : WGoodW w) (hu : UniqueNames ds s) :
    UniqueNames ds (applyRelMerge s ds w) ∧
    HasW ds (applyRelMerge s ds w) w ∧
    (∀ n : JValue, findIds s (nameKey n ds) ≠ [] →
        findIds (applyRelMerge s ds w) (nameKey n ds) = findIds s (nameKey n ds)) ∧
    (∃ t, (applyRelMerge s ds w).edges = s.edges ++ t) ∧
    (HasW ds s w →
        (applyRelMerge s ds w).nodes.length = s.nodes.length ∧
        (applyRelMerge s ds w).edges = s.edges) := by
  obtain ⟨hq1s, hq2s, hq1e, hq2e, hns, hnen⟩ := hw
  obtain ⟨a, ha2, hafind, hastab, hau, haedges, hamatch⟩ :=
    mergeNodes_summary s w.startName w.startType w.startProps ds hns hq1s hq2s hu
  rcases h1 : mergeNodes s (nameKey w.startName ds)
      (fun n => addProps (setProp n "type" w.startType) w.startProps)
      (fun n => addProps n w.startProps) with ⟨s1, as1⟩
  rw [h1] at ha2 hafind hastab hau haedges hamatch
  dsimp only at ha2 hafind hastab hau haedges hamatch
  obtain ⟨b, hb2, hbfind, hbstab, hbu, hbedges, hbmatch⟩ :=
    mergeNodes_summary s1 w.endName w.endType w.endProps ds hnen hq1e hq2e hau
  rcases h2 : mergeNodes s1 (nameKey w.endName ds)
      (fun n => addProps (setProp n "type" w.endType) w.endProps)
      (fun n => addProps n w.endProps) with ⟨s2, bs1⟩
  rw [h2] at hb2 hbfind hbstab hbu hbedges hbmatch
  dsimp only at hb2 hbfind hbstab hbu hbedges hbmatch
  have happ : applyRelMerge s ds w = mergeEdge s2 a b (relKey w.relation ds) id := by
    unfold applyRelMerge
    dsimp only
    rw [h1]
    dsimp only
    rw [h2]
    dsimp only
    rw [ha2, hb2]
    rfl
  obtain ⟨hmn, hmext, hmexists, hmnoop⟩ := mergeEdge_id_cases s2 a b w.relation ds
  have hfinal_nodes : (applyRelMerge s ds w).nodes = s2.nodes := by
    rw [happ, hmn]
  have hfA : findIds s2 (nameKey w.startName ds) = [a] := by
    rw [hbstab w.startName (by simp [hafind]), hafind]
  refine ⟨?_, ?_, ?_, ?_, ?_⟩
  · exact UniqueNames_congr hfinal_nodes.symm hbu
  · refine ⟨a, b, ?_, ?_, ?_⟩
    · rw [findIds_congr hfinal_nodes (nameKey w.startName ds)]
      exact hfA
    · rw [findIds_congr hfinal_nodes (nameKey w.endName ds)]
      exact hbfind
    · rw [happ]
      exact hmexists
  · intro n hn
    have h1s := hastab n hn
    have h2s := hbstab n (by rw [h1s]; exact hn)
    rw [findIds_congr hfinal_nodes (nameKey n ds), h2s, h1s]
  · obtain ⟨t, ht⟩ := hmext
    exact ⟨t, by rw [happ, ht, hbedges, haedges]⟩
  · intro hW
    obtain ⟨a0, b0, hA0, hB0, hE0⟩ := hW
    have hane : findIds s (nameKey w.startName ds) ≠ [] := by simp [hA0]
    obtain ⟨haeq, halen⟩ := hamatch hane
    have haa : a = a0 := by
      have h3 := hA0
      rw [haeq] at h3
      simp at h3
      exact h3
    have hbne1 : findIds s1 (nameKey w.endName ds) ≠ [] := by
      rw [hastab w.endName (by simp [hB0])]
      simp [hB0]
    obtain ⟨hbeq, hblen⟩ := hbmatch hbne1
    have hbb : b = b0 := by
      rw [hastab w.endName (by simp [hB0]), hB0] at hbeq
      simp at hbeq
      exact hbeq.symm
    have hEs2 : edgeExistsFor ds s2 w.relation a b := by
      obtain ⟨e, he, e1, e2, e3⟩ := hE0
      refine ⟨e, ?_, ?_, ?_, e3⟩
      · rw [hbedges, haedges]
        exact he
      · rw [haa]
        exact e1
      · rw [hbb]
        exact e2
    have hedge := hmnoop hEs2
    constructor
    · rw [hfinal_nodes, hblen, halen]
    · rw [happ, hedge, hbedges, haedges]

theorem applyRelMerge_preserves_HasW (s : GraphState) (ds : String) (w : RelWrite)
    (hw : WGoodW w) (hu : UniqueNames ds s) :
    ∀ w0 : RelWrite, HasW ds s w0 → HasW ds (applyRelMerge s ds w) w0 := by
  obtain ⟨_, _, hstab, hext, _⟩ := applyRelMerge_main s ds w hw hu
  intro w0 h0
  obtain ⟨a0, b0, hA0, hB0, hE0⟩ := h0
  refine ⟨a0, b0, ?_, ?_, edgeExistsFor_extends hext hE0⟩
  · rw [hstab _ (by simp [hA0])]
    exact hA0
  · rw [hstab _ (by simp [hB0])]
    exact hB0

theorem successWrites_nil (fail : WriteReq → Bool) (ds : String) :
    successWrites fail ds [] = [] := rfl

theorem successWrites_cons_none (fail : WriteReq → Bool) (ds : String)
    (item : JValue) (rest : List JValue) (h : relProcess item = .ok none) :
    successWrites fail ds (item :: rest) = successWrites fail ds rest := by
  simp [successWrites, List.filterMap_cons, h]

theorem successWrites_cons_fail (fail : WriteReq → Bool) (ds : String)
    (item : JValue) (rest : List JValue) (w : RelWrite)
    (h : relProcess item = .ok (some w)) (hf : fail (.relMerge ds w) = true) :
    successWrites fail ds (item :: rest) = successWrites fail ds rest := by
  simp [successWrites, List.filterMap_cons, h, hf]

theorem successWrites_cons_write (fail : WriteReq → Bool) (ds : String)
    (item : JValue) (rest : List JValue) (w : RelWrite)
    (h : relProcess item = .ok (some w)) (hf : fail (.relMerge ds w) = false) :
    successWrites fail ds (item :: rest) = w :: successWrites fail ds rest := by
  simp [successWrites, List.filterMap_cons, h, hf]

theorem loadRelGo_invariant (fail : WriteReq → Bool) (ds : String) :
    ∀ (items : List JValue) (s : GraphState) (nc rc : Nat),
    UniqueNames ds s →
    (∀ it ∈ items, relProcess it ≠ .error ()) →
    (∀ w ∈ successWrites fail ds items, WGoodW w) →
    UniqueNames ds (loadRelGo fail ds s nc rc items).1 ∧
    (∀ w0 : RelWrite, HasW ds s w0 → HasW ds (loadRelGo fail ds s nc rc items).1 w0) ∧
    (∀ w ∈ successWrites fail ds items, HasW ds (loadRelGo fail ds s nc rc items).1 w) := by
  intro items
  induction items with
  | nil =>
    intro s nc rc hu _ _
    exact ⟨hu, fun w0 h => h, fun w hw => absurd hw (by simp [successWrites])⟩
  | cons item rest ih =>
    intro s nc rc hu hok hgood
    cases hp : relProcess item with
    | error u =>
      cases u
      exact absurd hp (hok item (List.mem_cons_self _ _))
    | ok w? =>
      cases w? with
      | none =>
        have hstep : loadRelGo fail ds s nc rc (item :: rest)
            = loadRelGo fail ds s nc rc rest := by
          simp [loadRelGo, hp]
        have hsw := successWrites_cons_none fail ds item rest hp
        rw [hstep, hsw]
        exact ih s nc rc hu (fun it h2 => hok it (List.mem_cons_of_mem _ h2))
          (fun w2 h2 => hgood w2 (by rw [hsw]; exact h2))
      | some w =>
        by_cases hf0 : fail (.relMerge ds w) = true
        · have hstep : loadRelGo fail ds s nc rc (item :: rest)
              = loadRelGo fail ds s nc rc rest := by
            simp [loadRelGo, hp, hf0]
          have hsw := successWrites_cons_fail fail ds item rest w hp hf0
          rw [hstep, hsw]
          exact ih s nc rc hu (fun it h2 => hok it (List.mem_cons_of_mem _ h2))
            (fun w2 h2 => hgood w2 (by rw [hsw]; exact h2))
        · have hfw : fail (.relMerge ds w) = false := Bool.eq_false_iff.mpr hf0
          have hstep : loadRelGo fail ds s nc rc (item :: rest)
              = loadRelGo fail ds (applyRelMerge s ds w) (nc + 2) (rc + 1) rest := by
            simp [loadRelGo, hp, hfw]
          have hsw := successWrites_cons_write fail ds item rest w hp hfw
          have hwGood : WGoodW w := hgood w (by rw [hsw]; exact List.mem_cons_self _ _)
          obtain ⟨hu2, hHasW2, _, _, _⟩ := applyRelMerge_main s ds w hwGood hu
          have hpres := applyRelMerge_preserves_HasW s ds w hwGood hu
          obtain ⟨ih1, ih2, ih3⟩ := ih (applyRelMerge s ds w) (nc + 2) (rc + 1) hu2
            (fun it h2 => hok it (List.mem_cons_of_mem _ h2))
            (fun w2 h2 => hgood w2 (by rw [hsw]; exact List.mem_cons_of_mem _ h2))
          rw [hstep, hsw]
          refine ⟨ih1, fun w0 h0 => ih2 w0 (hpres w0 h0), ?_⟩
          intro w2 hw2
          rcases List.mem_cons.mp hw2 with he | he
          · subst he
            exact ih2 w2 hHasW2
          · exact ih3 w2 he

theorem loadRelGo_noop (fail : WriteReq → Bool) (ds : String) :
    ∀ (items : List JValue) (s : GraphState) (nc rc : Nat),
    UniqueNames ds s →
    (∀ it ∈ items, relProcess it ≠ .error ()) →
    (∀ w ∈ successWrites fail ds items, WGoodW w ∧ HasW ds s w) →
    (loadRelGo fail ds s nc rc items).1.nodes.length = s.nodes.length ∧
    (loadRelGo fail ds s nc rc items).1.edges.length = s.edges.length := by
  intro items
  induction items with
  | nil => intro s nc rc _ _ _; exact ⟨rfl, rfl⟩
  | cons item rest ih =>
    intro s nc rc hu hok hgood
    cases hp : relProcess item with
    | error u =>
      cases u
      exact absurd hp (hok item (List.mem_cons_self _ _))
    | ok w? =>
      cases w? with
      | none =>
        have hstep : loadRelGo fail ds s nc rc (item :: rest)
            = loadRelGo fail ds s nc rc rest := by
          simp [loadRelGo, hp]
        have hsw := successWrites_cons_none fail ds item rest hp
        rw [hstep]
        exact ih s nc rc hu (fun it h2 => hok it (List.mem_cons_of_mem _ h2))
          (fun w2 h2 => hgood w2 (by rw [hsw]; exact h2))
      | some w =>
        by_cases hf0 : fail (.relMerge ds w) = true
        · have hstep : loadRelGo fail ds s nc rc (item :: rest)
              = loadRelGo fail ds s nc rc rest := by
            simp [loadRelGo, hp, hf0]
          have hsw := successWrites_cons_fail fail ds item rest w hp hf0
          rw [hstep]
          exact ih s nc rc hu (fun it h2 => hok it (List.mem_cons_of_mem _ h2))
            (fun w2 h2 => hgood w2 (by rw [hsw]; exact h2))
        · have hfw : fail (.relMerge ds w) = false := Bool.eq_false_iff.mpr hf0
          have hstep : loadRelGo fail ds s nc rc (item :: rest)
              = loadRelGo fail ds (applyRelMerge s ds w) (nc + 2) (rc + 1) rest := by
            simp [loadRelGo, hp, hfw]
          have hsw := successWrites_cons_write fail ds item rest w hp hfw
          have hgw := hgood w (by rw [hsw]; exact List.mem_cons_self _ _)
          obtain ⟨hu2, _, _, _, hnoop⟩ := applyRelMerge_main s ds w hgw.1 hu
          obtain ⟨hlen_nodes, hedges_eq⟩ := hnoop hgw.2
          have hpres := applyRelMerge_preserves_HasW s ds w hgw.1 hu
          obtain ⟨r1, r2⟩ := ih (applyRelMerge s ds w) (nc + 2) (rc + 1) hu2
            (fun it h2 => hok it (List.mem_cons_of_mem _ h2))
            (fun w2 h2 =>
              ⟨(hgood w2 (by rw [hsw]; exact List.mem_cons_of_mem _ h2)).1,
               hpres w2 (hgood w2 (by rw [hsw]; exact List.mem_cons_of_mem _ h2)).2⟩)
          rw [hstep]
          constructor
          · rw [r1, hlen_nodes]
          · rw [r2, hedges_eq]

theorem load_relationship_list_format_state (fail : WriteReq → Bool) (ds : String)
    (s : GraphState) (items : List JValue) :
    (load_relationship_list_format fail ds s items).1
      = (loadRelGo fail ds s 0 0 items).1 := by
  unfold load_relationship_list_format
  rcases h : loadRelGo fail ds s 0 0 items with ⟨s1, r⟩
  rcases r with u | ⟨nc, rc⟩ <;> rfl

theorem load_graph_from_json_rel_state (fail : WriteReq → Bool) (ds : String)
    (items : List JValue) (s : GraphState) :
    (load_graph_from_json fail true (some (.arr items)) ds false s).1
      = (load_relationship_list_format fail ds s items).1 := by
  unfold load_graph_from_json
  simp only [Bool.not_true, Bool.false_eq_true, if_false, Bool.false_and]
  rcases h : load_relationship_list_format fail ds s items with ⟨s1, r⟩
  rcases r with u | st <;> rfl

/-- C3: for every well-formed relationship-list input — records whose
extraction does not raise, and whose property snapshots do not smuggle
a reserved `dataset` key or an inconsistent `name` entry — loading the
same file twice into the same dataset with `clear_existing=false`
leaves exactly the same stored-node count and stored-edge count as
loading it once: node upserts keyed by `(name, dataset)` and
relationship upserts keyed by `(type, dataset)` between the same pair
merge on the second pass instead of duplicating, provided the starting
state grants MERGE its uniqueness premise (at most one stored node per
`(name, dataset)` key). -/
theorem C3_reload_preserves_stored_counts (fail : WriteReq → Bool) (ds : String)
    (items : List JValue) (s0 : GraphState)
    (hu : UniqueNames ds s0)
    (hok : ∀ it ∈ items, relProcess it ≠ .error ())
    (hgood : ∀ w ∈ successWrites fail ds items, WGoodW w) :
    ((load_graph_from_json fail true (some (.arr items)) ds false
        (load_graph_from_json fail true (some (.arr items)) ds false s0).1).1.nodes.length
      = (load_graph_from_json fail true (some (.arr items)) ds false s0).1.nodes.length) ∧
    ((load_graph_from_json fail true (some (.arr items)) ds false
        (load_graph_from_json fail true (some (.arr items)) ds false s0).1).1.edges.length
      = (load_graph_from_json fail true (some (.arr items)) ds false s0).1.edges.length) := by
  simp only [load_graph_from_json_rel_state, load_relationship_list_format_state]
  obtain ⟨hu1, _, hHas1⟩ := loadRelGo_invariant fail ds items s0 0 0 hu hok hgood
  exact loadRelGo_noop fail ds items (loadRelGo fail ds s0 0 0 items).1 0 0 hu1 hok
    (fun w h => ⟨hgood w h, hHas1 w h⟩)

/-- The relationship-list record of the spec's scenario: A (person)
located_in B (location). -/
def relItem1 : JValue := .obj [
  ("start_node", .obj [("label", .str "entity"),
     ("properties", .obj [("name", .str "A"), ("schema_type", .str "person")])]),
  ("end_node", .obj [("label", .str "entity"),
     ("properties", .obj [("name", .str "B"), ("schema_type", .str "location")])]),
  ("relation", .str "located_in")]

/-- Witness for C3: reloading the scenario file into a fresh dataset
changes neither the stored-node count nor the stored-edge count. -/
theorem C3_witness :
    ((load_graph_from_json neverFail true (some (.arr [relItem1])) "demo" false
        (load_graph_from_json neverFail true (some (.arr [relItem1])) "demo" false
          GraphState.empty).1).1.nodes.length
      = (load_graph_from_json neverFail true (some (.arr [relItem1])) "demo" false
          GraphState.empty).1.nodes.length) ∧
    ((load_graph_from_json neverFail true (some (.arr [relItem1])) "demo" false
        (load_graph_from_json neverFail true (some (.arr [relItem1])) "demo" false
          GraphState.empty).1).1.edges.length
      = (load_graph_from_json neverFail true (some (.arr [relItem1])) "demo" false
          GraphState.empty).1.edges.length) :=
  C3_reload_preserves_stored_counts neverFail "demo" [relItem1] GraphState.empty
    (fun n => by simp [findIds, GraphState.empty])
    (by decide) (by decide)
